import Mathlib

/-!
# Verification of the PicAI evaluation and sweep engine

Shallow embedding of the metric, threshold-analysis and sweep-driver code of
`eval/run_sweep.py`, `eval/run_baseline.py` and `eval/run_tagging_benchmark.py`.

Numeric model: Python floats are idealized as exact rationals `ℚ`, and
`round(x, n)` as exact decimal rounding half-to-even (Python's tie rule).
The external HTTP inference endpoint is modelled as an oracle parameter: a
function from the request data the code sends to either a parsed response or
an error message (an exception).  File contents (datasets, checkpoints) are
likewise passed in as values.
-/

namespace PicAI

/-- Round a rational to the nearest integer, ties to even (Python `round`). -/
def roundHalfEven (x : ℚ) : ℤ :=
  let f := ⌊x⌋
  let r := x - (f : ℚ)
  if r < 1 / 2 then f
  else if 1 / 2 < r then f + 1
  else if f % 2 = 0 then f else f + 1

/-- Python `round(x, 4)` on the rational idealization. -/
def round4 (x : ℚ) : ℚ := (roundHalfEven (x * 10000) : ℚ) / 10000

/-- Python `round(x, 2)` on the rational idealization. -/
def round2 (x : ℚ) : ℚ := (roundHalfEven (x * 100) : ℚ) / 100

/-- A precision/recall/F1 triple, the shape returned by both metric functions
(`{"precision": .., "recall": .., "f1": ..}`). -/
structure Metrics where
  precision : ℚ
  recall' : ℚ
  f1 : ℚ
deriving DecidableEq

/-- Body of `compute_photo_accuracy` after the `set(...)` conversions
(`run_sweep.py` lines 99-117, identically `run_baseline.py` lines 80-102). -/
def photoAccuracyOfSets (retrieved expected : Finset String) : Metrics :=
  if expected = ∅ ∧ retrieved = ∅ then ⟨1, 1, 1⟩
  else if expected = ∅ then ⟨0, 1, 0⟩
  else if retrieved = ∅ then ⟨1, 0, 0⟩
  else
    let tp : ℚ := (retrieved ∩ expected).card
    let precision := tp / retrieved.card
    let recall' := tp / expected.card
    let f1 := if 0 < precision + recall' then 2 * precision * recall' / (precision + recall') else 0
    ⟨round4 precision, round4 recall', round4 f1⟩

/-- `compute_photo_accuracy(retrieved_ids, expected_ids)`: converts both input
lists to sets and scores them. -/
def compute_photo_accuracy (retrieved_ids expected_ids : List String) : Metrics :=
  photoAccuracyOfSets retrieved_ids.toFinset expected_ids.toFinset

/-- Modelled from the claim's words (C1 policy table): the set accuracy metric
as the specification states it, with the degenerate-case table and
`f1 = harmonic mean of precision and recall (0 if precision+recall=0)`,
all outputs rounded to 4 decimal digits. -/
def photoAccuracySpec (retrieved expected : Finset String) : Metrics :=
  if expected = ∅ ∧ retrieved = ∅ then ⟨1, 1, 1⟩
  else if expected = ∅ then ⟨0, 1, 0⟩
  else if retrieved = ∅ then ⟨1, 0, 0⟩
  else
    let p : ℚ := (retrieved ∩ expected).card / retrieved.card
    let r : ℚ := (retrieved ∩ expected).card / expected.card
    ⟨round4 p, round4 r, round4 (if p + r = 0 then 0 else 2 * p * r / (p + r))⟩

/-- `compute_tag_metrics(correct, incorrect, missing)`
(`run_tagging_benchmark.py` lines 54-82): precision/recall/F1 from three
pre-labeled tag lists; only their lengths enter the computation. -/
def compute_tag_metrics (correct incorrect missing : List String) : Metrics :=
  if correct.length + incorrect.length = 0 ∧ correct.length + missing.length = 0 then
    ⟨1, 1, 1⟩
  else if correct.length + incorrect.length = 0 then ⟨1, 0, 0⟩
  else if correct.length + missing.length = 0 then ⟨0, 1, 0⟩
  else
    let precision : ℚ := (correct.length : ℚ) / ((correct.length + incorrect.length : ℕ) : ℚ)
    let recall' : ℚ := (correct.length : ℚ) / ((correct.length + missing.length : ℕ) : ℚ)
    let f1 := if 0 < precision + recall' then
        2 * precision * recall' / (precision + recall') else 0
    ⟨round4 precision, round4 recall', round4 f1⟩

/-- Modelled from the claim's words (C2 policy table): with
`totalAI = |correct|+|incorrect|` and `totalGround = |correct|+|missing|`,
the four-row result table, F1 the harmonic mean (0 if precision+recall = 0),
rounded to 4 decimals. -/
def tagMetricsSpec (correct incorrect missing : List String) : Metrics :=
  if correct.length + incorrect.length = 0 ∧ correct.length + missing.length = 0 then
    ⟨1, 1, 1⟩
  else if correct.length + incorrect.length = 0 then ⟨1, 0, 0⟩
  else if correct.length + missing.length = 0 then ⟨0, 1, 0⟩
  else
    let p : ℚ := (correct.length : ℚ) / ((correct.length + incorrect.length : ℕ) : ℚ)
    let r : ℚ := (correct.length : ℚ) / ((correct.length + missing.length : ℕ) : ℚ)
    ⟨round4 p, round4 r, round4 (if p + r = 0 then 0 else 2 * p * r / (p + r))⟩

/-- One labeled tag observation collected by `analyze_thresholds`
(`run_tagging_benchmark.py` lines 148-153):
`{"tag": .., "confidence": .., "category": .., "is_correct": ..}`. -/
structure TagSample where
  tag : String
  confidence : ℚ
  category : String
  is_correct : Bool
deriving DecidableEq

/-- One row of a threshold sweep.  The overall sweep's empty-`above` row has
no `"recall"` key in the emitted dict, hence `recall'` is an `Option`. -/
structure SweepEntry where
  threshold : ℚ
  total_tags : ℕ
  correct : ℕ
  incorrect : ℕ
  precision : ℚ
  recall' : Option ℚ
  f1 : ℚ
deriving DecidableEq

/-- `thresholds = [round(t * 0.05, 2) for t in range(0, 21)]`
(`run_tagging_benchmark.py` line 156). -/
def sweepThresholds : List ℚ := (List.range 21).map (fun t => round2 ((t : ℚ) * (5 / 100)))

/-- Number of samples labeled correct: `sum(1 for s in l if s["is_correct"])`. -/
def countCorrect (l : List TagSample) : ℕ := (l.filter (fun s => s.is_correct)).length

/-- `above = [s for s in samples if s["confidence"] >= thresh]` — inclusive. -/
def aboveThreshold (samples : List TagSample) (t : ℚ) : List TagSample :=
  samples.filter (fun s => t ≤ s.confidence)

/-- One row of the overall threshold sweep (`run_tagging_benchmark.py`
lines 160-192).  Note: the empty-`above` row omits the recall field. -/
def overallEntry (tag_samples : List TagSample) (thresh : ℚ) : SweepEntry :=
  if (aboveThreshold tag_samples thresh).isEmpty then
    ⟨thresh, 0, 0, 0, 0, none, 0⟩
  else
    let above := aboveThreshold tag_samples thresh
    let correct := countCorrect above
    let incorrect := above.length - correct
    let total_correct := countCorrect tag_samples
    let precision : ℚ := (correct : ℚ) / (above.length : ℚ)
    let recall' : ℚ := if 0 < total_correct then (correct : ℚ) / (total_correct : ℚ) else 0
    let f1 := if 0 < precision + recall' then
        2 * precision * recall' / (precision + recall') else 0
    ⟨thresh, above.length, correct, incorrect,
      round4 precision, some (round4 recall'), round4 f1⟩

/-- `overall_sweep` as a list over the threshold axis (the loop appends one
entry per axis point, in axis order). -/
def overall_sweep (tag_samples : List TagSample) : List SweepEntry :=
  sweepThresholds.map (overallEntry tag_samples)

/-- `cat_samples = [s for s in tag_samples if s["category"] == cat]`. -/
def categorySamples (tag_samples : List TagSample) (cat : String) : List TagSample :=
  tag_samples.filter (fun s => s.category = cat)

/-- One row of a per-category threshold sweep (`run_tagging_benchmark.py`
lines 206-225); here the empty-`above` row does carry `recall = 0.0`. -/
def categoryEntry (cat_samples : List TagSample) (total_correct_in_cat : ℕ)
    (thresh : ℚ) : SweepEntry :=
  if (aboveThreshold cat_samples thresh).isEmpty then
    ⟨thresh, 0, 0, 0, 0, some 0, 0⟩
  else
    let above := aboveThreshold cat_samples thresh
    let correct := countCorrect above
    let incorrect := above.length - correct
    let precision : ℚ := (correct : ℚ) / (above.length : ℚ)
    let recall' : ℚ :=
      if 0 < total_correct_in_cat then (correct : ℚ) / (total_correct_in_cat : ℚ) else 0
    let f1 := if 0 < precision + recall' then
        2 * precision * recall' / (precision + recall') else 0
    ⟨thresh, above.length, correct, incorrect,
      round4 precision, some (round4 recall'), round4 f1⟩

/-- The sweep for one category's sub-corpus. -/
def category_sweep (tag_samples : List TagSample) (cat : String) : List SweepEntry :=
  sweepThresholds.map
    (categoryEntry (categorySamples tag_samples cat)
      (countCorrect (categorySamples tag_samples cat)))

/-- Modelled from the claim's words (C3): `precision = correct / |above|`
(0 if `above` is empty). -/
def specPrecision (above : List TagSample) : ℚ :=
  if above.length = 0 then 0 else (countCorrect above : ℚ) / (above.length : ℚ)

/-- Modelled from the claim's words (C3): `recall = (correct above t) /
(total correct in scope)` (0 if that denominator is 0). -/
def specRecall (above : List TagSample) (totalCorrectInScope : ℕ) : ℚ :=
  if totalCorrectInScope = 0 then 0
  else (countCorrect above : ℚ) / (totalCorrectInScope : ℚ)

/-- Harmonic mean of precision and recall, 0 when their sum is 0. -/
def specF1 (p r : ℚ) : ℚ := if p + r = 0 then 0 else 2 * p * r / (p + r)

/-- Python `max(entries, key=lambda x: x["f1"])`: scan left to right, replace
the current best only on a strictly larger key (ties keep the earliest
element); Python raises on an empty list, hence `Option`. -/
def pyMaxByF1 : List SweepEntry → Option SweepEntry
  | [] => none
  | e :: rest => some (rest.foldl (fun m x => if m.f1 < x.f1 then x else m) e)

/-- `best_overall = max(overall_sweep, key=lambda x: x["f1"])`
(`run_tagging_benchmark.py` line 195). -/
def best_overall_threshold (tag_samples : List TagSample) : Option SweepEntry :=
  pyMaxByF1 (overall_sweep tag_samples)

/-- `best_per_category[cat] = max(sweep, key=lambda x: x["f1"])`
(`run_tagging_benchmark.py` line 227). -/
def best_category_threshold (tag_samples : List TagSample) (cat : String) :
    Option SweepEntry :=
  pyMaxByF1 (category_sweep tag_samples cat)

/-- A `searchParams` override: `{"k": .., "minScore": .., "relativeCutoff": ..}`. -/
structure SearchParams where
  k : ℕ
  minScore : ℚ
  relativeCutoff : ℚ
deriving DecidableEq

/-- A photo record of the chat response, with the metadata fields read by
`build_context_string` (`run_baseline.py` lines 110-140). -/
structure Photo where
  photoId : String
  originalName : Option String
  tags : List String
  people : List String
  takenAt : Option String
  uploadedAt : Option String
  groupName : Option String
  score : Option ℚ
deriving DecidableEq

/-- Parsed `data` object of a chat response.  `usage` is `none` for an
absent/empty usage dict, otherwise `(inputTokens, outputTokens)` with the
code's `.get(.., 0)` defaults applied.  `latency`'s outer `Option` models the
dict's truthiness (`none` = absent/empty), the inner one the `"totalMs"` key. -/
structure ChatData where
  photos : List Photo
  response : String
  usage : Option (ℕ × ℕ)
  latency : Option (Option ℚ)
deriving DecidableEq

/-- `GROUP_IDS` constant of `run_sweep.py` / `run_baseline.py`. -/
def GROUP_IDS : List String := ["9c8d74a6-e5fc-4ee1-a898-bddaaaa0d4f2"]

/-- `group_ids = GROUP_IDS if category == "group-based" else None`. -/
def groupIdsFor (category : String) : Option (List String) :=
  if category = "group-based" then some GROUP_IDS else none

/-- One line of `rag_golden.jsonl`. -/
structure GoldenEntry where
  question : String
  category : String
  expected_photo_ids : List String
deriving DecidableEq

/-- `query_chat(question, group_ids, search_params)` modelled as an oracle:
the external endpoint either returns parsed data or raises (the `Except`
error carries `str(e)`). -/
def SweepOracle : Type := String → Option (List String) → SearchParams → Except String ChatData

/-- `query_chat(question, group_ids)` of `run_baseline.py` as an oracle. -/
def BaselineOracle : Type := String → Option (List String) → Except String ChatData

/-- One element of `run_combo`'s `per_query` list; `error` is the extra key
appended only in the `except` branch. -/
structure SweepQueryRecord where
  question : String
  category : String
  expected_count : ℕ
  retrieved_count : ℕ
  precision : ℚ
  recall' : ℚ
  f1 : ℚ
  error : Option String
deriving DecidableEq

/-- `mean_of(values)` (`run_sweep.py` line 120-121, `run_baseline.py`
lines 242-243): rounded arithmetic mean, 0.0 on an empty list. -/
def mean_of (values : List ℚ) : ℚ :=
  if values.isEmpty then 0 else round4 (values.sum / (values.length : ℚ))

/-- Body of `run_combo`'s per-query loop (`run_sweep.py` lines 147-189):
returns the per-query record together with the query's token and latency
contributions (zero / absent in the `except` branch). -/
def processQuery (oracle : SweepOracle) (params : SearchParams) (entry : GoldenEntry) :
    SweepQueryRecord × ℕ × ℕ × Option ℚ :=
  match oracle entry.question (groupIdsFor entry.category) params with
  | .ok data =>
      let retrieved_ids := data.photos.map (fun p => p.photoId)
      let accuracy := compute_photo_accuracy retrieved_ids entry.expected_photo_ids
      (⟨entry.question, entry.category, entry.expected_photo_ids.length,
        retrieved_ids.length, accuracy.precision, accuracy.recall', accuracy.f1, none⟩,
        (data.usage.map Prod.fst).getD 0, (data.usage.map Prod.snd).getD 0,
        match data.latency with
        | some (some ms) => some ms
        | _ => none)
  | .error e =>
      (⟨entry.question, entry.category, entry.expected_photo_ids.length,
        0, 0, 0, 0, some e⟩, 0, 0, none)

/-- One value of a `by_category` map: `{"count", "precision", "recall", "f1"}`. -/
structure CatSummary where
  count : ℕ
  precision : ℚ
  recall' : ℚ
  f1 : ℚ
deriving DecidableEq

/-- `sorted(...)` over the distinct category keys (Python dicts iterate in
insertion order; `sorted(categories.items())` sorts them by key). -/
def sortedCats (cats : List String) : List String :=
  List.insertionSort (fun a b => a ≤ b) cats.dedup

/-- The queries of one category, in order (`categories.setdefault(...)`). -/
def categoryGroup (per_query : List SweepQueryRecord) (cat : String) :
    List SweepQueryRecord :=
  per_query.filter (fun q => q.category = cat)

/-- Per-category aggregation of `run_combo` (`run_sweep.py` lines 201-208). -/
def catSummaryOf (qs : List SweepQueryRecord) : CatSummary :=
  ⟨qs.length, mean_of (qs.map (fun q => q.precision)),
    mean_of (qs.map (fun q => q.recall')), mean_of (qs.map (fun q => q.f1))⟩

/-- The dict returned by `run_combo` (`run_sweep.py` lines 210-224). -/
structure ComboResult where
  params : SearchParams
  overall : Metrics
  by_category : List (String × CatSummary)
  total_input_tokens : ℕ
  total_output_tokens : ℕ
  avg_latency_ms : ℤ
  per_query : List SweepQueryRecord
deriving DecidableEq

/-- `run_combo(golden, k, min_score, rel_cutoff, delay)` (`run_sweep.py`
lines 133-224).  The fixed inter-request `time.sleep(delay)` is real time and
not modelled; the endpoint is the oracle argument. -/
def run_combo (golden : List GoldenEntry) (oracle : SweepOracle)
    (params : SearchParams) : ComboResult :=
  let processed := golden.map (processQuery oracle params)
  let per_query := processed.map (fun p => p.1)
  let latencies := processed.filterMap (fun p => p.2.2.2)
  { params := params
  , overall := ⟨mean_of (per_query.map (fun q => q.precision)),
      mean_of (per_query.map (fun q => q.recall')),
      mean_of (per_query.map (fun q => q.f1))⟩
  , by_category := (sortedCats (per_query.map (fun q => q.category))).map
      (fun cat => (cat, catSummaryOf (categoryGroup per_query cat)))
  , total_input_tokens := (processed.map (fun p => p.2.1)).sum
  , total_output_tokens := (processed.map (fun p => p.2.2.1)).sum
  , avg_latency_ms := if latencies.isEmpty then 0 else roundHalfEven (mean_of latencies)
  , per_query := per_query }

/-- Fixed-point decimal rendering with 3 digits (Python `f"{score:.3f}"`). -/
def fmtFixed3 (q : ℚ) : String :=
  let n := roundHalfEven (q * 1000)
  let sign := if n < 0 then "-" else ""
  let m := n.natAbs
  let frac := m % 1000
  let pad := if frac < 10 then "00" else if frac < 100 then "0" else ""
  sign ++ toString (m / 1000) ++ "." ++ pad ++ toString frac

/-- `build_context_string(photo)` (`run_baseline.py` lines 110-140). -/
def build_context_string (p : Photo) : String :=
  let parts := ["Photo: " ++ p.originalName.getD "unknown"]
  let parts := parts ++
    (if p.tags.isEmpty then [] else ["Tags: " ++ String.intercalate ", " p.tags])
  let parts := parts ++
    (if p.people.isEmpty then [] else ["People: " ++ String.intercalate ", " p.people])
  let parts := parts ++ (match p.takenAt with | some t => ["Taken: " ++ t] | none => [])
  let parts := parts ++
    (match p.uploadedAt with | some t => ["Uploaded: " ++ t] | none => [])
  let parts := parts ++
    (match p.groupName with | some g => ["Group: " ++ g] | none => [])
  let parts := parts ++
    (match p.score with | some s => ["Similarity: " ++ fmtFixed3 s] | none => [])
  String.intercalate " | " parts

/-- One element of `run_baseline.py`'s `raw_results` (main loop, lines
316-357); the `except` branch produces the degraded record. -/
structure RawResult where
  question : String
  category : String
  expected_photo_ids : List String
  retrieved_photo_ids : List String
  response_text : String
  contexts : List String
  latency : Option (Option ℚ)
  usage : Option (ℕ × ℕ)
deriving DecidableEq

/-- Body of the baseline main loop for one query (`run_baseline.py`
lines 323-354). -/
def baselineRawResult (oracle : BaselineOracle) (entry : GoldenEntry) : RawResult :=
  match oracle entry.question (groupIdsFor entry.category) with
  | .ok data =>
      ⟨entry.question, entry.category, entry.expected_photo_ids,
        data.photos.map (fun p => p.photoId), data.response,
        data.photos.map build_context_string, data.latency, data.usage⟩
  | .error e =>
      ⟨entry.question, entry.category, entry.expected_photo_ids, [],
        "ERROR: " ++ e, [], none, none⟩

/-- Steps 1-2 of `run_baseline.py`'s main: run every query, then attach
`photo_accuracy = compute_photo_accuracy(retrieved, expected)` (lines
359-364). -/
def baselineResults (oracle : BaselineOracle) (golden : List GoldenEntry) :
    List (RawResult × Metrics) :=
  (golden.map (baselineRawResult oracle)).map
    (fun r => (r, compute_photo_accuracy r.retrieved_photo_ids r.expected_photo_ids))

/-- Overall accuracy aggregate of `aggregate_results` (`run_baseline.py`
lines 274-279), RAGAS path disabled (the LLM-judge subsystem is an external
collaborator, out of the specified core). -/
def baseline_overall (per_query : List (RawResult × Metrics)) : Metrics :=
  ⟨mean_of (per_query.map (fun q => q.2.precision)),
    mean_of (per_query.map (fun q => q.2.recall')),
    mean_of (per_query.map (fun q => q.2.f1))⟩

/-- `latencies = [q["latency"].get("totalMs", 0) for q in per_query if
q.get("latency")]` (`run_baseline.py` line 280). -/
def baselineLatencies (per_query : List (RawResult × Metrics)) : List ℚ :=
  per_query.filterMap (fun q =>
    match q.1.latency with
    | none => none
    | some inner => some (inner.getD 0))

/-- Token totals of `aggregate_results` (`run_baseline.py` lines 281-282). -/
def baselineTokenTotals (per_query : List (RawResult × Metrics)) : ℕ × ℕ :=
  (((per_query.filterMap (fun q => q.1.usage)).map Prod.fst).sum,
    ((per_query.filterMap (fun q => q.1.usage)).map Prod.snd).sum)

/-- Per-category aggregate of `aggregate_results` (`run_baseline.py`
lines 253-272), accuracy part. -/
def baseline_by_category (per_query : List (RawResult × Metrics)) :
    List (String × CatSummary) :=
  (sortedCats (per_query.map (fun q => q.1.category))).map (fun cat =>
    let qs := per_query.filter (fun q => q.1.category = cat)
    (cat, ⟨qs.length, mean_of (qs.map (fun q => q.2.precision)),
      mean_of (qs.map (fun q => q.2.recall')), mean_of (qs.map (fun q => q.2.f1))⟩))

/-- A single labeled observation with confidence 0.3, used as a concrete
corpus for the threshold-sweep theorems. -/
def cexSample : TagSample := ⟨"a", 3 / 10, "object", true⟩

/-- The two-query corpus of the spec's aggregation test: one exact hit, one
total miss. -/
def cexGolden2 : List GoldenEntry :=
  [⟨"q1", "people", ["p1"]⟩, ⟨"q2", "people", ["p2"]⟩]

/-- A response photo carrying only its id. -/
def mkPhoto (id : String) : Photo := ⟨id, none, [], [], none, none, none, none⟩

/-- An endpoint that answers `q1` with exactly the expected photo and `q2`
with an unrelated one. -/
def cexOracle2 : SweepOracle := fun q _ _ =>
  if q = "q1" then .ok ⟨[mkPhoto "p1"], "ok", none, none⟩
  else .ok ⟨[mkPhoto "x"], "ok", none, none⟩

/-- A one-query corpus whose expected set is non-empty. -/
def cexGoldenFail : List GoldenEntry := [⟨"q", "people", ["p1"]⟩]

/-- A sweep-side endpoint that always raises. -/
def cexFailOracleS : SweepOracle := fun _ _ _ => .error "timeout"

/-- A baseline-side endpoint that always raises. -/
def cexFailOracleB : BaselineOracle := fun _ _ => .error "timeout"

/-- `combo_key(k, min_score, rel_cutoff) = f"k={k}_min={min_score}_rel={rel_cutoff}"`
(`run_sweep.py` lines 129-130).  Python interpolates the float values; here
the rationals are rendered with `toString`, likewise injective on values. -/
def combo_key (params : SearchParams) : String :=
  "k=" ++ toString params.k ++ "_min=" ++ toString params.minScore ++
    "_rel=" ++ toString params.relativeCutoff

/-- The checkpoint object `{"completed": {configKey: comboResult}}`; the
Python dict is modelled as an insertion-ordered association list. -/
structure Checkpoint where
  completed : List (String × ComboResult)
deriving DecidableEq

/-- Python dict assignment `d[key] = value`: replaces in place when the key
exists, appends otherwise. -/
def assocInsert (l : List (String × ComboResult)) (key : String) (v : ComboResult) :
    List (String × ComboResult) :=
  if l.any (fun p => p.1 = key) then
    l.map (fun p => if p.1 = key then (key, v) else p)
  else l ++ [(key, v)]

/-- `already_done = set(checkpoint.get("completed", {}).keys())` (line 286). -/
def alreadyDone (cp : Checkpoint) : List String := cp.completed.map (fun p => p.1)

/-- `combos_remaining = [c for c in combos if combo_key(c) not in already_done]`
(`run_sweep.py` line 293). -/
def combosRemaining (combos : List SearchParams) (cp : Checkpoint) : List SearchParams :=
  combos.filter (fun c => ¬ combo_key c ∈ alreadyDone cp)

/-- `load_checkpoint()` (`run_sweep.py` lines 227-231): the file's parsed
content when the file exists, else `{"completed": {}}`. -/
def load_checkpoint (fileCp : Option Checkpoint) : Checkpoint := fileCp.getD ⟨[]⟩

/-- `checkpoint = load_checkpoint() if args.resume else {"completed": {}}`
(line 285). -/
def initialCheckpoint (resume : Bool) (fileCp : Option Checkpoint) : Checkpoint :=
  if resume then load_checkpoint fileCp else ⟨[]⟩

/-- The sweep loop's mutable state: the in-memory checkpoint and the
checkpoint file's content (`none` = file absent). -/
structure DriverState where
  checkpoint : Checkpoint
  file : Option Checkpoint
deriving DecidableEq

/-- One iteration of the sweep loop (`run_sweep.py` lines 295-317): run the
combo, record it under its key, and `save_checkpoint` immediately. -/
def driverStep (golden : List GoldenEntry) (oracle : SweepOracle)
    (st : DriverState) (c : SearchParams) : DriverState :=
  let result := run_combo golden oracle c
  let cp := Checkpoint.mk (assocInsert st.checkpoint.completed (combo_key c) result)
  ⟨cp, some cp⟩

/-- The successive states of the sweep loop: `states[0]` is the state in
which the first remaining combo starts; `states[i+1]` the state after combo
`i` completed and was saved — the state in which combo `i+1` starts. -/
def driverStates (golden : List GoldenEntry) (oracle : SweepOracle)
    (st : DriverState) : List SearchParams → List DriverState
  | [] => [st]
  | c :: rest => st :: driverStates golden oracle (driverStep golden oracle st c) rest

/-- `results = list(checkpoint["completed"].values())` plus one append per
remaining combo (`run_sweep.py` lines 291-308). -/
def driverResults (golden : List GoldenEntry) (oracle : SweepOracle)
    (cp0 : Checkpoint) (remaining : List SearchParams) : List ComboResult :=
  cp0.completed.map (fun p => p.2) ++ remaining.map (run_combo golden oracle)

/-- Descending order on overall F1, the sort key of `results.sort(key=...,
reverse=True)`. -/
def comboGE (a b : ComboResult) : Prop := b.overall.f1 ≤ a.overall.f1

instance : DecidableRel comboGE :=
  fun a b => inferInstanceAs (Decidable (b.overall.f1 ≤ a.overall.f1))

instance : IsTotal ComboResult comboGE := ⟨fun a b => le_total b.overall.f1 a.overall.f1⟩

instance : IsTrans ComboResult comboGE := ⟨fun _ _ _ hab hbc => le_trans hbc hab⟩

/-- `results.sort(key=lambda r: r["overall"]["f1"], reverse=True)`
(`run_sweep.py` line 320): stable descending sort by overall F1. -/
def rankResults (results : List ComboResult) : List ComboResult :=
  List.insertionSort comboGE results

/-- `baseline = next((r for r in results if r.params == (10, 0.5, 0.75)), None)`
(`run_sweep.py` lines 338-340), searched over the already-sorted results. -/
def baselineLookup (results : List ComboResult) : Option ComboResult :=
  results.find? (fun r => r.params = ⟨10, 1 / 2, 3 / 4⟩)

/-- Everything `main` produces after the grid is built (`run_sweep.py`
lines 284-408): the loop's state trace, the result list, the F1-descending
ranking, the baseline lookup, and the checkpoint file after the final
cleanup (`CHECKPOINT_PATH.unlink()` — deleted whether or not it existed). -/
structure SweepOutcome where
  states : List DriverState
  results : List ComboResult
  ranked : List ComboResult
  baseline : Option ComboResult
  finalFile : Option Checkpoint
deriving DecidableEq

/-- The sweep driver (`run_sweep.py` `main`, post grid construction). -/
def runSweepDriver (golden : List GoldenEntry) (oracle : SweepOracle)
    (resume : Bool) (fileCp : Option Checkpoint) (combos : List SearchParams) :
    SweepOutcome :=
  let checkpoint0 := initialCheckpoint resume fileCp
  let remaining := combosRemaining combos checkpoint0
  let results := driverResults golden oracle checkpoint0 remaining
  { states := driverStates golden oracle ⟨checkpoint0, fileCp⟩ remaining
  , results := results
  , ranked := rankResults results
  , baseline := baselineLookup (rankResults results)
  , finalFile := none }

/-- 0.3 as an exact rational. -/
def cexMin : ℚ := ⟨3, 10, by decide, by decide⟩

/-- 0.5 as an exact rational. -/
def cexRelA : ℚ := ⟨1, 2, by decide, by decide⟩

/-- 0.6 as an exact rational. -/
def cexRelB : ℚ := ⟨3, 5, by decide, by decide⟩

/-- The configuration (10, 0.3, 0.5) of the spec's resume scenario. -/
def cexComboA : SearchParams := ⟨10, cexMin, cexRelA⟩

/-- The configuration (10, 0.3, 0.6) of the spec's resume scenario. -/
def cexComboB : SearchParams := ⟨10, cexMin, cexRelB⟩

/-- The two-combo grid of the resume scenario. -/
def cexGrid : List SearchParams := [cexComboA, cexComboB]

/-- A persisted checkpoint already containing the first combo. -/
def cexCheckpoint : Checkpoint :=
  ⟨[(combo_key cexComboA, run_combo [] cexFailOracleS cexComboA)]⟩

/-- One AI tag of a tagging ground-truth record:
`{"tag": .., "confidence": .., "category": ..}`. -/
structure AiTag where
  tag : String
  confidence : ℚ
  category : String
deriving DecidableEq

/-- One line of `tagging_ground_truth.jsonl`. -/
structure GTEntry where
  photoId : String
  originalName : String
  ai_tags : List AiTag
  correct_tags : List String
  incorrect_tags : List String
  missing_tags : List String
deriving DecidableEq

/-- The classification of one AI tag inside `analyze_thresholds`
(`run_tagging_benchmark.py` lines 138-153): lowercase membership, the
correct set checked first, unlabeled tags skipped; the produced sample keeps
the original casing of the tag. -/
def classifyAiTag (correct_set incorrect_set : List String) (a : AiTag) :
    Option TagSample :=
  if a.tag.toLower ∈ correct_set then some ⟨a.tag, a.confidence, a.category, true⟩
  else if a.tag.toLower ∈ incorrect_set then
    some ⟨a.tag, a.confidence, a.category, false⟩
  else none

/-- The samples one ground-truth entry contributes (lines 134-153); the label
sets are lowercased before matching. -/
def entrySamples (e : GTEntry) : List TagSample :=
  e.ai_tags.filterMap
    (classifyAiTag (e.correct_tags.map String.toLower)
      (e.incorrect_tags.map String.toLower))

/-- The full corpus of labeled observations collected by `analyze_thresholds`. -/
def collectTagSamples (gt : List GTEntry) : List TagSample :=
  (gt.map entrySamples).flatten

/-- `tag_to_category[tag.lower()] = category` built over `ai_tags` in order
(`run_tagging_benchmark.py` lines 92-94); a later duplicate key overwrites. -/
def tagToCategory (ai_tags : List AiTag) : String → Option String :=
  ai_tags.foldl
    (fun m a => fun key => if key = a.tag.toLower then some a.category else m key)
    (fun _ => none)

/-- `tag_to_category.get(tag.lower(), "unknown")`. -/
def lookupCategory (ai_tags : List AiTag) (key : String) : String :=
  (tagToCategory ai_tags key).getD "unknown"

/-- The three tag buckets of one category in `categorize_tags`' result. -/
structure CatBuckets where
  correct : List String
  incorrect : List String
  missing : List String
deriving DecidableEq

/-- Pointwise update of the bucket map (`by_cat[cat]` mutation of the
`defaultdict`). -/
def bucketUpd (m : String → CatBuckets) (c : String) (f : CatBuckets → CatBuckets) :
    String → CatBuckets :=
  fun c2 => if c2 = c then f (m c2) else m c2

/-- `categorize_tags(entry)` (`run_tagging_benchmark.py` lines 85-110): the
`defaultdict` is modelled as a total function from category name to buckets
(untouched categories give the empty buckets). -/
def categorize_tags (e : GTEntry) : String → CatBuckets :=
  let base : String → CatBuckets := fun _ => ⟨[], [], []⟩
  let m1 := e.correct_tags.foldl
    (fun m t => bucketUpd m (lookupCategory e.ai_tags t.toLower)
      (fun b => ⟨b.correct ++ [t], b.incorrect, b.missing⟩)) base
  let m2 := e.incorrect_tags.foldl
    (fun m t => bucketUpd m (lookupCategory e.ai_tags t.toLower)
      (fun b => ⟨b.correct, b.incorrect ++ [t], b.missing⟩)) m1
  e.missing_tags.foldl
    (fun m t => bucketUpd m "missing_from_ai"
      (fun b => ⟨b.correct, b.incorrect, b.missing ++ [t]⟩)) m2

/-- `build_confidence_map(entry)` (`run_tagging_benchmark.py` lines 113-115):
`{t["tag"].lower(): t["confidence"] for t in entry["ai_tags"]}`. -/
def build_confidence_map (e : GTEntry) : String → Option ℚ :=
  e.ai_tags.foldl
    (fun m a => fun key => if key = a.tag.toLower then some a.confidence else m key)
    (fun _ => none)

/-- The per-label confidence summary of `analyze_thresholds`
(`run_tagging_benchmark.py` lines 229-255), applied to one label's
confidence list; the code sorts ascending first and indexes `len // 2` for
the median. -/
structure ConfStats where
  count : ℕ
  min : Option ℚ
  max : Option ℚ
  mean : Option ℚ
  median : Option ℚ
deriving DecidableEq

/-- `count/min/max/mean/median` over one label's (sorted) confidence list. -/
def confStats (confs : List ℚ) : ConfStats :=
  let s := List.insertionSort (fun a b : ℚ => a ≤ b) confs
  { count := s.length
  , min := s.min?.map round4
  , max := s.max?.map round4
  , mean := if s.isEmpty then none else some (round4 (s.sum / (s.length : ℚ)))
  , median := (s[s.length / 2]?).map round4 }

/-- The `confidence_distribution` object: the stats of the correct-labeled
and the incorrect-labeled observations. -/
def confidence_distribution (samples : List TagSample) : ConfStats × ConfStats :=
  (confStats ((samples.filter (fun s => s.is_correct)).map (fun s => s.confidence)),
   confStats ((samples.filter (fun s => !s.is_correct)).map (fun s => s.confidence)))

/-! ## Theorems -/

lemma photoAccuracyOfSets_eq_spec (R E : Finset String) :
    photoAccuracyOfSets R E = photoAccuracySpec R E := by
  unfold photoAccuracyOfSets photoAccuracySpec
  split
  · rfl
  · split
    · rfl
    · split
      · rfl
      · set p : ℚ := ((R ∩ E).card : ℚ) / (R.card : ℚ) with hp
        set r : ℚ := ((R ∩ E).card : ℚ) / (E.card : ℚ) with hr
        have hp0 : 0 ≤ p := by
          rw [hp]; exact div_nonneg (Nat.cast_nonneg _) (Nat.cast_nonneg _)
        have hr0 : 0 ≤ r := by
          rw [hr]; exact div_nonneg (Nat.cast_nonneg _) (Nat.cast_nonneg _)
        have hpr : 0 ≤ p + r := add_nonneg hp0 hr0
        simp only [Metrics.mk.injEq]
        refine ⟨trivial, trivial, ?_⟩
        congr 1
        by_cases hc : p + r = 0
        · simp [hc]
        · have hlt : 0 < p + r := lt_of_le_of_ne hpr (Ne.symm hc)
          rw [if_pos hlt, if_neg hc]

/-- Claim C1: `compute_photo_accuracy` converts both input identifier lists to
sets and then satisfies the degenerate-case policy table with
precision `|∩|/|retrieved|`, recall `|∩|/|expected|`, F1 the harmonic mean
(0 when precision+recall = 0), all rounded to 4 decimals; and the result
depends only on the underlying sets, so order and duplicates in the input
lists are irrelevant. -/
theorem photo_accuracy_set_spec (r e : List String) :
    compute_photo_accuracy r e = photoAccuracySpec r.toFinset e.toFinset ∧
    ∀ r2 e2 : List String, r2.toFinset = r.toFinset → e2.toFinset = e.toFinset →
      compute_photo_accuracy r2 e2 = compute_photo_accuracy r e := by
  refine ⟨photoAccuracyOfSets_eq_spec _ _, ?_⟩
  intro r2 e2 hr he
  unfold compute_photo_accuracy
  rw [hr, he]

/-- Witness for C1 at concrete inputs: a permuted input list with duplicates
gives the same result as its deduplicated ordering. -/
theorem photo_accuracy_set_spec_inst :
    (["a", "b", "a"] : List String).toFinset = (["b", "a"] : List String).toFinset ∧
    compute_photo_accuracy ["a", "b", "a"] ["x", "a"] =
      compute_photo_accuracy ["b", "a"] ["x", "a"] := by
  refine ⟨by decide, ?_⟩
  exact (photo_accuracy_set_spec ["b", "a"] ["x", "a"]).2 ["a", "b", "a"] ["x", "a"]
    (by decide) (by decide)

/-- Claim C2: for pairwise-disjoint label lists, `compute_tag_metrics` follows
the four-row policy table on `totalAI = |correct|+|incorrect|` and
`totalGround = |correct|+|missing|`, with harmonic-mean F1 (0 when
precision+recall = 0) and rounding to 4 decimals. -/
theorem tag_metrics_table (c i m : List String)
    (_hci : c.Disjoint i) (_hcm : c.Disjoint m) (_him : i.Disjoint m) :
    compute_tag_metrics c i m = tagMetricsSpec c i m := by
  unfold compute_tag_metrics tagMetricsSpec
  split
  · rfl
  · split
    · rfl
    · split
      · rfl
      · set p : ℚ := (c.length : ℚ) / ((c.length + i.length : ℕ) : ℚ) with hp
        set r : ℚ := (c.length : ℚ) / ((c.length + m.length : ℕ) : ℚ) with hr
        have hp0 : 0 ≤ p := by
          rw [hp]; exact div_nonneg (Nat.cast_nonneg _) (Nat.cast_nonneg _)
        have hr0 : 0 ≤ r := by
          rw [hr]; exact div_nonneg (Nat.cast_nonneg _) (Nat.cast_nonneg _)
        have hpr : 0 ≤ p + r := add_nonneg hp0 hr0
        simp only [Metrics.mk.injEq]
        refine ⟨trivial, trivial, ?_⟩
        congr 1
        by_cases hc : p + r = 0
        · simp [hc]
        · have hlt : 0 < p + r := lt_of_le_of_ne hpr (Ne.symm hc)
          rw [if_pos hlt, if_neg hc]

/-- Witness for C2: the spec's own example `tag_accuracy(["a"], [], []) = {1,1,1}`. -/
theorem tag_metrics_table_inst :
    (["a"] : List String).Disjoint ([] : List String) ∧
    compute_tag_metrics ["a"] [] [] = tagMetricsSpec ["a"] [] [] ∧
    compute_tag_metrics ["a"] [] [] = ⟨1, 1, 1⟩ := by
  refine ⟨by simp, tag_metrics_table ["a"] [] [] (by simp) (by simp) (by simp), ?_⟩
  norm_num [compute_tag_metrics, round4, roundHalfEven]

lemma round4_zero : round4 0 = 0 := by norm_num [round4, roundHalfEven]

lemma specPrecision_nonneg (A : List TagSample) : 0 ≤ specPrecision A := by
  unfold specPrecision
  split
  · exact le_refl 0
  · exact div_nonneg (Nat.cast_nonneg _) (Nat.cast_nonneg _)

lemma specRecall_nonneg (A : List TagSample) (tc : ℕ) : 0 ≤ specRecall A tc := by
  unfold specRecall
  split
  · exact le_refl 0
  · exact div_nonneg (Nat.cast_nonneg _) (Nat.cast_nonneg _)

lemma harmonic_guard (p r : ℚ) (hp : 0 ≤ p) (hr : 0 ≤ r) :
    (if 0 < p + r then 2 * p * r / (p + r) else 0) = specF1 p r := by
  unfold specF1
  by_cases hc : p + r = 0
  · simp [hc]
  · rw [if_pos (lt_of_le_of_ne (add_nonneg hp hr) (Ne.symm hc)), if_neg hc]

lemma recall_guard (c tc : ℕ) :
    (if 0 < tc then (c : ℚ) / (tc : ℚ) else 0) =
      (if tc = 0 then 0 else (c : ℚ) / (tc : ℚ)) := by
  by_cases h : tc = 0
  · simp [h]
  · simp [h, Nat.pos_of_ne_zero h]

lemma overallEntry_eq_spec (samples : List TagSample) (t : ℚ) :
    overallEntry samples t =
      ⟨t, (aboveThreshold samples t).length,
        countCorrect (aboveThreshold samples t),
        (aboveThreshold samples t).length - countCorrect (aboveThreshold samples t),
        round4 (specPrecision (aboveThreshold samples t)),
        if (aboveThreshold samples t).isEmpty then none
          else some (round4 (specRecall (aboveThreshold samples t) (countCorrect samples))),
        round4 (specF1 (specPrecision (aboveThreshold samples t))
          (specRecall (aboveThreshold samples t) (countCorrect samples)))⟩ := by
  by_cases h : (aboveThreshold samples t).isEmpty
  · have hnil : aboveThreshold samples t = [] := List.isEmpty_iff.mp h
    rw [overallEntry, if_pos h, hnil]
    simp [countCorrect, specPrecision, specRecall, specF1, round4_zero]
  · have hlen : (aboveThreshold samples t).length ≠ 0 := by
      simpa [List.isEmpty_iff, List.length_eq_zero] using h
    rw [overallEntry, if_neg h]
    simp only [SweepEntry.mk.injEq, h, if_false]
    refine ⟨trivial, trivial, trivial, trivial, ?_, ?_, ?_⟩
    · rw [specPrecision, if_neg hlen]
    · rw [recall_guard]
      simp only [specRecall]
      simp
    · rw [show ((countCorrect (aboveThreshold samples t) : ℚ) /
          ((aboveThreshold samples t).length : ℚ)) =
          specPrecision (aboveThreshold samples t) by rw [specPrecision, if_neg hlen],
        recall_guard, show (if countCorrect samples = 0 then (0 : ℚ)
            else (countCorrect (aboveThreshold samples t) : ℚ) / (countCorrect samples : ℚ)) =
          specRecall (aboveThreshold samples t) (countCorrect samples) from rfl,
        harmonic_guard _ _ (specPrecision_nonneg _) (specRecall_nonneg _ _)]

lemma categoryEntry_eq_spec (cat_samples : List TagSample) (tc : ℕ) (t : ℚ) :
    categoryEntry cat_samples tc t =
      ⟨t, (aboveThreshold cat_samples t).length,
        countCorrect (aboveThreshold cat_samples t),
        (aboveThreshold cat_samples t).length - countCorrect (aboveThreshold cat_samples t),
        round4 (specPrecision (aboveThreshold cat_samples t)),
        some (round4 (specRecall (aboveThreshold cat_samples t) tc)),
        round4 (specF1 (specPrecision (aboveThreshold cat_samples t))
          (specRecall (aboveThreshold cat_samples t) tc))⟩ := by
  by_cases h : (aboveThreshold cat_samples t).isEmpty
  · have hnil : aboveThreshold cat_samples t = [] := List.isEmpty_iff.mp h
    rw [categoryEntry, if_pos h, hnil]
    simp [countCorrect, specPrecision, specRecall, specF1, round4_zero]
  · have hlen : (aboveThreshold cat_samples t).length ≠ 0 := by
      simpa [List.isEmpty_iff, List.length_eq_zero] using h
    rw [categoryEntry, if_neg h]
    simp only [SweepEntry.mk.injEq]
    refine ⟨trivial, trivial, trivial, trivial, ?_, ?_, ?_⟩
    · rw [specPrecision, if_neg hlen]
    · rw [recall_guard]
      simp only [specRecall]
    · rw [show ((countCorrect (aboveThreshold cat_samples t) : ℚ) /
          ((aboveThreshold cat_samples t).length : ℚ)) =
          specPrecision (aboveThreshold cat_samples t) by rw [specPrecision, if_neg hlen],
        recall_guard, show (if tc = 0 then (0 : ℚ)
            else (countCorrect (aboveThreshold cat_samples t) : ℚ) / (tc : ℚ)) =
          specRecall (aboveThreshold cat_samples t) tc from rfl,
        harmonic_guard _ _ (specPrecision_nonneg _) (specRecall_nonneg _ _)]

/-- Claim C3 as amended: for every corpus, axis point and scope, the sweep
entry reports `precision = correct/|above|` (0 if `above` empty),
`recall = (correct above t)/(total correct in scope)` (0 if that denominator
is 0) and `f1` their harmonic mean (0 when the sum is 0), rounded to 4
decimals, with inclusive `≥` membership in `above` — except that in the
OVERALL sweep an entry whose `above` set is empty omits the recall field
entirely (the per-category sweeps do report recall = 0 there). -/
theorem threshold_sweep_entry_spec (samples : List TagSample) (t : ℚ)
    (_ht : t ∈ sweepThresholds) (cat : String) :
    (∀ s ∈ samples, s ∈ aboveThreshold samples t ↔ t ≤ s.confidence) ∧
    (overallEntry samples t).precision = round4 (specPrecision (aboveThreshold samples t)) ∧
    (overallEntry samples t).recall' =
      (if (aboveThreshold samples t).isEmpty then none
       else some (round4 (specRecall (aboveThreshold samples t) (countCorrect samples)))) ∧
    (overallEntry samples t).f1 =
      round4 (specF1 (specPrecision (aboveThreshold samples t))
        (specRecall (aboveThreshold samples t) (countCorrect samples))) ∧
    (categoryEntry (categorySamples samples cat)
        (countCorrect (categorySamples samples cat)) t).precision =
      round4 (specPrecision (aboveThreshold (categorySamples samples cat) t)) ∧
    (categoryEntry (categorySamples samples cat)
        (countCorrect (categorySamples samples cat)) t).recall' =
      some (round4 (specRecall (aboveThreshold (categorySamples samples cat) t)
        (countCorrect (categorySamples samples cat)))) ∧
    (categoryEntry (categorySamples samples cat)
        (countCorrect (categorySamples samples cat)) t).f1 =
      round4 (specF1 (specPrecision (aboveThreshold (categorySamples samples cat) t))
        (specRecall (aboveThreshold (categorySamples samples cat) t)
          (countCorrect (categorySamples samples cat)))) ∧
    overall_sweep samples = sweepThresholds.map (overallEntry samples) ∧
    category_sweep samples cat = sweepThresholds.map
      (categoryEntry (categorySamples samples cat)
        (countCorrect (categorySamples samples cat))) := by
  refine ⟨?_, ?_, ?_, ?_, ?_, ?_, ?_, rfl, rfl⟩
  · intro s hs
    simp [aboveThreshold, List.mem_filter, hs]
  · rw [overallEntry_eq_spec]
  · rw [overallEntry_eq_spec]
  · rw [overallEntry_eq_spec]
  · rw [categoryEntry_eq_spec]
  · rw [categoryEntry_eq_spec]
  · rw [categoryEntry_eq_spec]

/-- Counterexample to C3 as stated: at axis point 0.35 the only observation
(confidence 0.3) falls below threshold, `above` is empty, and the overall
sweep entry then carries NO recall value at all — not `recall = 0` as the
claim asserts. -/
theorem overall_sweep_empty_recall_missing :
    (7 / 20 : ℚ) ∈ sweepThresholds ∧
    aboveThreshold [cexSample] (7 / 20) = [] ∧
    (overallEntry [cexSample] (7 / 20)).recall' = none ∧
    (overallEntry [cexSample] (7 / 20)).recall' ≠ some 0 := by
  have hmem : (7 / 20 : ℚ) ∈ sweepThresholds := by
    refine List.mem_map.mpr ⟨7, by decide, ?_⟩
    norm_num [round2, roundHalfEven]
  have hempty : aboveThreshold [cexSample] (7 / 20) = [] := by
    simp only [aboveThreshold, cexSample, List.filter]
    norm_num
  refine ⟨hmem, hempty, ?_, ?_⟩ <;>
    simp [overallEntry, hempty]

/-- Witness for the amended C3 at a concrete corpus and the concrete axis
point 0.5. -/
theorem threshold_sweep_entry_spec_inst :
    (1 / 2 : ℚ) ∈ sweepThresholds ∧
    (overallEntry [cexSample] (1 / 2)).precision =
      round4 (specPrecision (aboveThreshold [cexSample] (1 / 2))) := by
  have hmem : (1 / 2 : ℚ) ∈ sweepThresholds := by
    refine List.mem_map.mpr ⟨10, by decide, ?_⟩
    norm_num [round2, roundHalfEven]
  exact ⟨hmem, (threshold_sweep_entry_spec [cexSample] (1 / 2) hmem "object").2.1⟩

lemma mem_of_getElemOpt {α : Type} {l : List α} {i : ℕ} {a : α}
    (h : l[i]? = some a) : a ∈ l := by
  obtain ⟨hlt, hEq⟩ := List.getElem?_eq_some.mp h
  exact hEq ▸ List.getElem_mem _

lemma pyMaxFold_spec (rest : List SweepEntry) (e : SweepEntry) :
    ∃ i : ℕ, (e :: rest)[i]? =
        some (rest.foldl (fun m x => if m.f1 < x.f1 then x else m) e) ∧
      (∀ x ∈ e :: rest,
        x.f1 ≤ (rest.foldl (fun m x => if m.f1 < x.f1 then x else m) e).f1) ∧
      ∀ j : ℕ, j < i → ∀ x : SweepEntry, (e :: rest)[j]? = some x →
        x.f1 < (rest.foldl (fun m x => if m.f1 < x.f1 then x else m) e).f1 := by
  induction rest generalizing e with
  | nil =>
    refine ⟨0, rfl, ?_, ?_⟩
    · intro x hx
      simp only [List.mem_singleton] at hx
      simp [hx]
    · intro j hj x _
      omega
  | cons y ys ih =>
    by_cases hy : e.f1 < y.f1
    · have hstep : (y :: ys).foldl (fun m x => if m.f1 < x.f1 then x else m) e =
          ys.foldl (fun m x => if m.f1 < x.f1 then x else m) y := by
        simp [List.foldl_cons, if_pos hy]
      obtain ⟨i, hi, hub, hfirst⟩ := ih y
      rw [hstep]
      have hyr : y.f1 ≤ (ys.foldl (fun m x => if m.f1 < x.f1 then x else m) y).f1 :=
        hub y (List.mem_cons_self y ys)
      refine ⟨i + 1, ?_, ?_, ?_⟩
      · simpa [List.getElem?_cons_succ] using hi
      · intro x hx
        rcases List.mem_cons.mp hx with hxe | hx2
        · exact hxe ▸ le_of_lt (lt_of_lt_of_le hy hyr)
        · exact hub x hx2
      · intro j hj x hx
        cases j with
        | zero =>
          simp only [List.getElem?_cons_zero, Option.some.injEq] at hx
          exact hx ▸ lt_of_lt_of_le hy hyr
        | succ j2 =>
          exact hfirst j2 (by omega) x (by simpa [List.getElem?_cons_succ] using hx)
    · have hstep : (y :: ys).foldl (fun m x => if m.f1 < x.f1 then x else m) e =
          ys.foldl (fun m x => if m.f1 < x.f1 then x else m) e := by
        simp [List.foldl_cons, if_neg hy]
      obtain ⟨i, hi, hub, hfirst⟩ := ih e
      rw [hstep]
      have hyle : y.f1 ≤ e.f1 := le_of_not_lt hy
      have her : e.f1 ≤ (ys.foldl (fun m x => if m.f1 < x.f1 then x else m) e).f1 :=
        hub e (List.mem_cons_self e ys)
      cases i with
      | zero =>
        have hre : e = ys.foldl (fun m x => if m.f1 < x.f1 then x else m) e := by
          simpa [List.getElem?_cons_zero] using hi
        refine ⟨0, ?_, ?_, ?_⟩
        · simp [List.getElem?_cons_zero, ← hre]
        · intro x hx
          rcases List.mem_cons.mp hx with hxe | hx2
          · exact hxe ▸ her
          rcases List.mem_cons.mp hx2 with hxy | hx3
          · exact hxy ▸ le_trans hyle her
          · exact hub x (List.mem_cons_of_mem _ hx3)
        · intro j hj x _
          omega
      | succ i2 =>
        have h0r : e.f1 < (ys.foldl (fun m x => if m.f1 < x.f1 then x else m) e).f1 :=
          hfirst 0 (Nat.succ_pos i2) e (by simp)
        refine ⟨i2 + 2, ?_, ?_, ?_⟩
        · simpa [List.getElem?_cons_succ] using hi
        · intro x hx
          rcases List.mem_cons.mp hx with hxe | hx2
          · exact hxe ▸ her
          rcases List.mem_cons.mp hx2 with hxy | hx3
          · exact hxy ▸ le_trans hyle her
          · exact hub x (List.mem_cons_of_mem _ hx3)
        · intro j hj x hx
          cases j with
          | zero =>
            simp only [List.getElem?_cons_zero, Option.some.injEq] at hx
            exact hx ▸ h0r
          | succ j2 =>
            cases j2 with
            | zero =>
              simp only [List.getElem?_cons_succ, List.getElem?_cons_zero,
                Option.some.injEq] at hx
              exact hx ▸ lt_of_le_of_lt hyle h0r
            | succ j3 =>
              refine hfirst (j3 + 1) (by omega) x ?_
              simpa [List.getElem?_cons_succ] using hx

lemma pyMaxByF1_spec (l : List SweepEntry) (hl : l ≠ []) :
    ∃ r : SweepEntry, pyMaxByF1 l = some r ∧ r ∈ l ∧ (∀ x ∈ l, x.f1 ≤ r.f1) ∧
      ∃ i : ℕ, l[i]? = some r ∧
        ∀ j : ℕ, j < i → ∀ x : SweepEntry, l[j]? = some x → x.f1 < r.f1 := by
  match l with
  | [] => exact absurd rfl hl
  | e :: rest =>
    obtain ⟨i, hi, hub, hfirst⟩ := pyMaxFold_spec rest e
    exact ⟨_, rfl, mem_of_getElemOpt hi, hub, ⟨i, hi, hfirst⟩⟩

lemma overallEntry_threshold (samples : List TagSample) (t : ℚ) :
    (overallEntry samples t).threshold = t := by
  rw [overallEntry_eq_spec]

lemma categoryEntry_threshold (cat_samples : List TagSample) (tc : ℕ) (t : ℚ) :
    (categoryEntry cat_samples tc t).threshold = t := by
  rw [categoryEntry_eq_spec]

lemma mem_overall_sweep_threshold {samples : List TagSample} {r : SweepEntry}
    (hr : r ∈ overall_sweep samples) : r.threshold ∈ sweepThresholds := by
  obtain ⟨t, ht, hEq⟩ := List.mem_map.mp hr
  rw [← hEq, overallEntry_threshold]
  exact ht

lemma mem_category_sweep_threshold {samples : List TagSample} {cat : String}
    {r : SweepEntry} (hr : r ∈ category_sweep samples cat) :
    r.threshold ∈ sweepThresholds := by
  obtain ⟨t, ht, hEq⟩ := List.mem_map.mp hr
  rw [← hEq, categoryEntry_threshold]
  exact ht

lemma overall_sweep_ne_nil (samples : List TagSample) : overall_sweep samples ≠ [] := by
  simp only [overall_sweep, sweepThresholds, ne_eq, List.map_eq_nil_iff,
    List.range_eq_nil]
  norm_num
  exact ⟨0, by norm_num⟩

lemma category_sweep_ne_nil (samples : List TagSample) (cat : String) :
    category_sweep samples cat ≠ [] := by
  simp only [category_sweep, sweepThresholds, ne_eq, List.map_eq_nil_iff,
    List.range_eq_nil]
  norm_num
  exact ⟨0, by norm_num⟩

/-- Claim C4: for each scope (overall and each category) the selected best
threshold entry exists, lies on the sweep, its threshold is an axis point,
its F1 is maximal over the scope\'s sweep, it is the FIRST maximizer in scan
order (every earlier entry has strictly smaller F1), and the selection is a
pure function of the corpus, hence deterministic across runs. -/
theorem best_threshold_first_max (samples : List TagSample) (cat : String) :
    (∃ r : SweepEntry, best_overall_threshold samples = some r ∧
      r ∈ overall_sweep samples ∧
      r.threshold ∈ sweepThresholds ∧
      (∀ x ∈ overall_sweep samples, x.f1 ≤ r.f1) ∧
      ∃ i : ℕ, (overall_sweep samples)[i]? = some r ∧
        ∀ j : ℕ, j < i → ∀ x : SweepEntry,
          (overall_sweep samples)[j]? = some x → x.f1 < r.f1) ∧
    (∃ r : SweepEntry, best_category_threshold samples cat = some r ∧
      r ∈ category_sweep samples cat ∧
      r.threshold ∈ sweepThresholds ∧
      (∀ x ∈ category_sweep samples cat, x.f1 ≤ r.f1) ∧
      ∃ i : ℕ, (category_sweep samples cat)[i]? = some r ∧
        ∀ j : ℕ, j < i → ∀ x : SweepEntry,
          (category_sweep samples cat)[j]? = some x → x.f1 < r.f1) ∧
    (∀ samples2, samples2 = samples →
      best_overall_threshold samples2 = best_overall_threshold samples ∧
      ∀ cat2, cat2 = cat →
        best_category_threshold samples2 cat2 = best_category_threshold samples cat) := by
  refine ⟨?_, ?_, ?_⟩
  · obtain ⟨r, h1, h2, h3, h4⟩ := pyMaxByF1_spec _ (overall_sweep_ne_nil samples)
    exact ⟨r, h1, h2, mem_overall_sweep_threshold h2, h3, h4⟩
  · obtain ⟨r, h1, h2, h3, h4⟩ := pyMaxByF1_spec _ (category_sweep_ne_nil samples cat)
    exact ⟨r, h1, h2, mem_category_sweep_threshold h2, h3, h4⟩
  · intro samples2 hs
    subst hs
    exact ⟨rfl, fun cat2 hc => hc ▸ rfl⟩

/-- Witness for C4 at a concrete one-observation corpus. -/
theorem best_threshold_first_max_inst :
    ∃ r : SweepEntry, best_overall_threshold [cexSample] = some r ∧
      r ∈ overall_sweep [cexSample] ∧ r.threshold ∈ sweepThresholds ∧
      (∀ x ∈ overall_sweep [cexSample], x.f1 ≤ r.f1) ∧
      ∃ i : ℕ, (overall_sweep [cexSample])[i]? = some r ∧
        ∀ j : ℕ, j < i → ∀ x : SweepEntry,
          (overall_sweep [cexSample])[j]? = some x → x.f1 < r.f1 :=
  (best_threshold_first_max [cexSample] "object").1

lemma round4_one : round4 1 = 1 := by norm_num [round4, roundHalfEven]

lemma mean_of_eq (values : List ℚ) (h : values ≠ []) :
    mean_of values = round4 (values.sum / (values.length : ℚ)) := by
  rw [mean_of, if_neg (by simpa [List.isEmpty_iff] using h)]

lemma mem_sortedCats {cats : List String} {c : String} (h : c ∈ sortedCats cats) :
    c ∈ cats := by
  unfold sortedCats at h
  have hperm := List.perm_insertionSort (fun a b => a ≤ b) cats.dedup
  exact List.mem_dedup.mp (hperm.mem_iff.mp h)

lemma categoryGroup_ne_nil {per_query : List SweepQueryRecord} {cat : String}
    (h : cat ∈ sortedCats (per_query.map (fun q => q.category))) :
    categoryGroup per_query cat ≠ [] := by
  obtain ⟨q, hq, hqc⟩ := List.mem_map.mp (mem_sortedCats h)
  intro hnil
  have hmem : q ∈ categoryGroup per_query cat :=
    List.mem_filter.mpr ⟨hq, by simp [hqc]⟩
  rw [hnil] at hmem
  exact absurd hmem (List.not_mem_nil q)

lemma run_combo_per_query (golden : List GoldenEntry) (oracle : SweepOracle)
    (params : SearchParams) :
    (run_combo golden oracle params).per_query =
      (golden.map (processQuery oracle params)).map (fun p => p.1) := rfl

lemma photoAcc_hit : compute_photo_accuracy ["p1"] ["p1"] = ⟨1, 1, 1⟩ := by
  rw [compute_photo_accuracy, photoAccuracyOfSets,
    if_neg (by decide), if_neg (by decide), if_neg (by decide)]
  have h1 : (((["p1"] : List String).toFinset ∩ (["p1"] : List String).toFinset).card : ℚ) = 1 := by
    norm_num [show ((["p1"] : List String).toFinset ∩ (["p1"] : List String).toFinset).card = 1 from by decide]
  have h2 : (((["p1"] : List String).toFinset).card : ℚ) = 1 := by
    norm_num [show ((["p1"] : List String).toFinset).card = 1 from by decide]
  simp only [h1, h2]
  norm_num [round4, roundHalfEven]

lemma photoAcc_miss : compute_photo_accuracy ["x"] ["p2"] = ⟨0, 0, 0⟩ := by
  rw [compute_photo_accuracy, photoAccuracyOfSets,
    if_neg (by decide), if_neg (by decide), if_neg (by decide)]
  have h1 : (((["x"] : List String).toFinset ∩ (["p2"] : List String).toFinset).card : ℚ) = 0 := by
    rw [show ((["x"] : List String).toFinset ∩ (["p2"] : List String).toFinset).card = 0 from by decide]
    norm_num
  have h2 : (((["x"] : List String).toFinset).card : ℚ) = 1 := by
    norm_num [show ((["x"] : List String).toFinset).card = 1 from by decide]
  have h3 : (((["p2"] : List String).toFinset).card : ℚ) = 1 := by
    norm_num [show ((["p2"] : List String).toFinset).card = 1 from by decide]
  simp only [h1, h2, h3]
  norm_num [round4, roundHalfEven]

lemma cex_per_query :
    (run_combo cexGolden2 cexOracle2 ⟨10, 1 / 2, 3 / 4⟩).per_query =
      [⟨"q1", "people", 1, 1, 1, 1, 1, none⟩, ⟨"q2", "people", 1, 1, 0, 0, 0, none⟩] := by
  rw [run_combo_per_query]
  simp only [cexGolden2, List.map_cons, List.map_nil]
  rw [show processQuery cexOracle2 ⟨10, 1 / 2, 3 / 4⟩ ⟨"q1", "people", ["p1"]⟩ =
      (⟨"q1", "people", 1, 1, 1, 1, 1, none⟩, 0, 0, none) from by
    simp [processQuery, cexOracle2, groupIdsFor, mkPhoto, photoAcc_hit]]
  rw [show processQuery cexOracle2 ⟨10, 1 / 2, 3 / 4⟩ ⟨"q2", "people", ["p2"]⟩ =
      (⟨"q2", "people", 1, 1, 0, 0, 0, none⟩, 0, 0, none) from by
    simp [processQuery, cexOracle2, groupIdsFor, mkPhoto, photoAcc_miss]]

/-- Claim C5: for every non-empty query list the sweep evaluator's and the
baseline evaluator's overall and per-category precision/recall/F1 summaries
are the arithmetic means of the per-query metric values in the group, rounded
to 4 decimals (macro-averaging); in particular two queries with per-query F1
of 1.0 and 0.0 give an overall F1 of 0.5. -/
theorem combo_macro_average (golden : List GoldenEntry) (oracle : SweepOracle)
    (params : SearchParams) (pq : List (RawResult × Metrics)) :
    (golden ≠ [] →
      (run_combo golden oracle params).per_query.length = golden.length ∧
      (run_combo golden oracle params).overall.precision =
        round4 ((((run_combo golden oracle params).per_query.map
          (fun q => q.precision)).sum) /
          (((run_combo golden oracle params).per_query.length : ℕ) : ℚ)) ∧
      (run_combo golden oracle params).overall.recall' =
        round4 ((((run_combo golden oracle params).per_query.map
          (fun q => q.recall')).sum) /
          (((run_combo golden oracle params).per_query.length : ℕ) : ℚ)) ∧
      (run_combo golden oracle params).overall.f1 =
        round4 ((((run_combo golden oracle params).per_query.map
          (fun q => q.f1)).sum) /
          (((run_combo golden oracle params).per_query.length : ℕ) : ℚ)) ∧
      (∀ cat : String, ∀ s : CatSummary,
        (cat, s) ∈ (run_combo golden oracle params).by_category →
        categoryGroup (run_combo golden oracle params).per_query cat ≠ [] ∧
        s.count = (categoryGroup (run_combo golden oracle params).per_query cat).length ∧
        s.precision = round4
          (((categoryGroup (run_combo golden oracle params).per_query cat).map
            (fun q => q.precision)).sum /
          (((categoryGroup (run_combo golden oracle params).per_query cat).length : ℕ) : ℚ)) ∧
        s.recall' = round4
          (((categoryGroup (run_combo golden oracle params).per_query cat).map
            (fun q => q.recall')).sum /
          (((categoryGroup (run_combo golden oracle params).per_query cat).length : ℕ) : ℚ)) ∧
        s.f1 = round4
          (((categoryGroup (run_combo golden oracle params).per_query cat).map
            (fun q => q.f1)).sum /
          (((categoryGroup (run_combo golden oracle params).per_query cat).length : ℕ) : ℚ)))) ∧
    (pq ≠ [] →
      (baseline_overall pq).precision =
        round4 ((pq.map (fun q => q.2.precision)).sum / ((pq.length : ℕ) : ℚ)) ∧
      (baseline_overall pq).recall' =
        round4 ((pq.map (fun q => q.2.recall')).sum / ((pq.length : ℕ) : ℚ)) ∧
      (baseline_overall pq).f1 =
        round4 ((pq.map (fun q => q.2.f1)).sum / ((pq.length : ℕ) : ℚ)) ∧
      (∀ cat : String, ∀ s : CatSummary, (cat, s) ∈ baseline_by_category pq →
        (pq.filter (fun q => q.1.category = cat)) ≠ [] ∧
        s.count = (pq.filter (fun q => q.1.category = cat)).length ∧
        s.f1 = round4 (((pq.filter (fun q => q.1.category = cat)).map
            (fun q => q.2.f1)).sum /
          (((pq.filter (fun q => q.1.category = cat)).length : ℕ) : ℚ)))) ∧
    ((run_combo cexGolden2 cexOracle2 ⟨10, 1 / 2, 3 / 4⟩).per_query.map
        (fun q => q.f1) = [1, 0] ∧
      (run_combo cexGolden2 cexOracle2 ⟨10, 1 / 2, 3 / 4⟩).overall.f1 = 1 / 2) := by
  refine ⟨?_, ?_, ?_⟩
  · intro hg
    have hpq : (run_combo golden oracle params).per_query.length = golden.length := by
      rw [run_combo_per_query, List.length_map, List.length_map]
    have hne : (run_combo golden oracle params).per_query ≠ [] := by
      intro h0
      apply hg
      have := hpq
      rw [h0] at this
      exact List.length_eq_zero.mp this.symm
    refine ⟨hpq, ?_, ?_, ?_, ?_⟩
    · rw [show (run_combo golden oracle params).overall.precision =
          mean_of ((run_combo golden oracle params).per_query.map
            (fun q => q.precision)) from rfl,
        mean_of_eq _ (by simpa [List.map_eq_nil_iff] using hne), List.length_map]
    · rw [show (run_combo golden oracle params).overall.recall' =
          mean_of ((run_combo golden oracle params).per_query.map
            (fun q => q.recall')) from rfl,
        mean_of_eq _ (by simpa [List.map_eq_nil_iff] using hne), List.length_map]
    · rw [show (run_combo golden oracle params).overall.f1 =
          mean_of ((run_combo golden oracle params).per_query.map
            (fun q => q.f1)) from rfl,
        mean_of_eq _ (by simpa [List.map_eq_nil_iff] using hne), List.length_map]
    · intro cat s hmem
      have hbc : (run_combo golden oracle params).by_category =
          (sortedCats ((run_combo golden oracle params).per_query.map
            (fun q => q.category))).map
            (fun c => (c, catSummaryOf
              (categoryGroup (run_combo golden oracle params).per_query c))) := rfl
      rw [hbc] at hmem
      obtain ⟨c, hc, hEq⟩ := List.mem_map.mp hmem
      injection hEq with hc1 hc2
      rw [← hc1, ← hc2]
      have hgne := categoryGroup_ne_nil hc
      have hmapne : ∀ f : SweepQueryRecord → ℚ,
          (categoryGroup (run_combo golden oracle params).per_query c).map f ≠ [] := by
        intro f
        simpa [List.map_eq_nil_iff] using hgne
      refine ⟨hgne, rfl, ?_, ?_, ?_⟩
      · rw [show (catSummaryOf (categoryGroup (run_combo golden oracle params).per_query c)).precision =
            mean_of ((categoryGroup (run_combo golden oracle params).per_query c).map
              (fun q => q.precision)) from rfl,
          mean_of_eq _ (hmapne _), List.length_map]
      · rw [show (catSummaryOf (categoryGroup (run_combo golden oracle params).per_query c)).recall' =
            mean_of ((categoryGroup (run_combo golden oracle params).per_query c).map
              (fun q => q.recall')) from rfl,
          mean_of_eq _ (hmapne _), List.length_map]
      · rw [show (catSummaryOf (categoryGroup (run_combo golden oracle params).per_query c)).f1 =
            mean_of ((categoryGroup (run_combo golden oracle params).per_query c).map
              (fun q => q.f1)) from rfl,
          mean_of_eq _ (hmapne _), List.length_map]
  · intro hpq
    have hmapne : ∀ f : RawResult × Metrics → ℚ, pq.map f ≠ [] := by
      intro f
      simpa [List.map_eq_nil_iff] using hpq
    refine ⟨?_, ?_, ?_, ?_⟩
    · rw [show (baseline_overall pq).precision =
          mean_of (pq.map (fun q => q.2.precision)) from rfl,
        mean_of_eq _ (hmapne _), List.length_map]
    · rw [show (baseline_overall pq).recall' =
          mean_of (pq.map (fun q => q.2.recall')) from rfl,
        mean_of_eq _ (hmapne _), List.length_map]
    · rw [show (baseline_overall pq).f1 =
          mean_of (pq.map (fun q => q.2.f1)) from rfl,
        mean_of_eq _ (hmapne _), List.length_map]
    · intro cat s hmem
      rw [baseline_by_category] at hmem
      obtain ⟨c, hc, hEq⟩ := List.mem_map.mp hmem
      injection hEq with hc1 hc2
      rw [← hc1, ← hc2]
      have hfne : pq.filter (fun q => q.1.category = c) ≠ [] := by
        obtain ⟨q, hq, hqc⟩ := List.mem_map.mp (mem_sortedCats hc)
        intro hnil
        have hmem2 : q ∈ pq.filter (fun q => q.1.category = c) :=
          List.mem_filter.mpr ⟨hq, by simp [hqc]⟩
        rw [hnil] at hmem2
        exact absurd hmem2 (List.not_mem_nil q)
      have hfmapne : ∀ f : RawResult × Metrics → ℚ,
          (pq.filter (fun q => q.1.category = c)).map f ≠ [] := by
        intro f
        simpa [List.map_eq_nil_iff] using hfne
      refine ⟨hfne, rfl, ?_⟩
      rw [show (⟨(pq.filter (fun q => q.1.category = c)).length,
            mean_of ((pq.filter (fun q => q.1.category = c)).map (fun q => q.2.precision)),
            mean_of ((pq.filter (fun q => q.1.category = c)).map (fun q => q.2.recall')),
            mean_of ((pq.filter (fun q => q.1.category = c)).map (fun q => q.2.f1))⟩ :
          CatSummary).f1 =
          mean_of ((pq.filter (fun q => q.1.category = c)).map (fun q => q.2.f1)) from rfl,
        mean_of_eq _ (hfmapne _), List.length_map]
  · constructor
    · rw [cex_per_query]
      rfl
    · rw [show (run_combo cexGolden2 cexOracle2 ⟨10, 1 / 2, 3 / 4⟩).overall.f1 =
          mean_of ((run_combo cexGolden2 cexOracle2 ⟨10, 1 / 2, 3 / 4⟩).per_query.map
            (fun q => q.f1)) from rfl, cex_per_query]
      norm_num [mean_of, round4, roundHalfEven]

/-- Witness for C5: the two-query discriminating corpus is non-empty and the
per-query/overall macro-average facts hold there. -/
theorem combo_macro_average_inst :
    cexGolden2 ≠ [] ∧
    (run_combo cexGolden2 cexOracle2 ⟨10, 1 / 2, 3 / 4⟩).per_query.length =
      cexGolden2.length :=
  ⟨by decide,
    ((combo_macro_average cexGolden2 cexOracle2 ⟨10, 1 / 2, 3 / 4⟩ []).1
      (by decide)).1⟩

lemma photoAcc_empty_retrieved : compute_photo_accuracy [] ["p1"] = ⟨1, 0, 0⟩ := by
  rw [compute_photo_accuracy, photoAccuracyOfSets, if_neg (by decide),
    if_neg (by decide), if_pos (by decide)]

/-- Counterexample to C6 as stated: in the baseline evaluator a failed query
is recorded with an empty retrieval set and then scored by the set metric,
which yields precision = 1 (the "total miss" row), not the claimed
precision = 0. -/
theorem baseline_error_precision_one :
    cexFailOracleB "q" (groupIdsFor "people") = .error "timeout" ∧
    (baselineResults cexFailOracleB cexGoldenFail).map (fun r => r.2) = [⟨1, 0, 0⟩] ∧
    (baselineResults cexFailOracleB cexGoldenFail).map (fun r => r.2.precision) ≠ [0] ∧
    (baselineResults cexFailOracleB cexGoldenFail).map (fun r => r.1.response_text) =
      ["ERROR: timeout"] := by
  have h : baselineResults cexFailOracleB cexGoldenFail =
      [(⟨"q", "people", ["p1"], [], "ERROR: timeout", [], none, none⟩, ⟨1, 0, 0⟩)] := by
    simp [baselineResults, baselineRawResult, cexFailOracleB, cexGoldenFail,
      photoAcc_empty_retrieved]
  refine ⟨rfl, ?_, ?_, ?_⟩
  · rw [h]
    rfl
  · rw [h]
    norm_num
  · rw [h]
    rfl

/-- Claim C6 as amended: a failed inference request is caught per query and
the batch continues — the evaluator produces one record per query, each
query's record depending only on its own oracle outcome, and the degraded
record embeds the error message, has an empty retrieval set and zero token
and latency contribution.  In the sweep evaluator the degraded record has
precision = recall = f1 = 0; in the baseline evaluator the degraded record's
empty retrieval set is instead scored by the set metric (so precision = 1,
recall = f1 = 0 when the expected set is non-empty). -/
theorem per_query_error_isolation (golden : List GoldenEntry) (oracle : SweepOracle)
    (boracle : BaselineOracle) (params : SearchParams) (i : ℕ) (entry : GoldenEntry)
    (msg : String) :
    ((run_combo golden oracle params).per_query.length = golden.length ∧
     (golden[i]? = some entry →
        oracle entry.question (groupIdsFor entry.category) params = .error msg →
        (run_combo golden oracle params).per_query[i]? =
          some ⟨entry.question, entry.category, entry.expected_photo_ids.length,
            0, 0, 0, 0, some msg⟩) ∧
     (∀ j : ℕ, ∀ e2 : GoldenEntry, golden[j]? = some e2 →
        (run_combo golden oracle params).per_query[j]? =
          some (processQuery oracle params e2).1)) ∧
    ((baselineResults boracle golden).length = golden.length ∧
     (golden[i]? = some entry →
        boracle entry.question (groupIdsFor entry.category) = .error msg →
        (baselineResults boracle golden)[i]? =
          some (⟨entry.question, entry.category, entry.expected_photo_ids, [],
              "ERROR: " ++ msg, [], none, none⟩,
            compute_photo_accuracy [] entry.expected_photo_ids)) ∧
     (∀ j : ℕ, ∀ e2 : GoldenEntry, golden[j]? = some e2 →
        (baselineResults boracle golden)[j]? =
          some (baselineRawResult boracle e2,
            compute_photo_accuracy (baselineRawResult boracle e2).retrieved_photo_ids
              (baselineRawResult boracle e2).expected_photo_ids))) := by
  have hall : ∀ j : ℕ, ∀ e2 : GoldenEntry, golden[j]? = some e2 →
      (run_combo golden oracle params).per_query[j]? =
        some (processQuery oracle params e2).1 := by
    intro j e2 hj
    rw [run_combo_per_query, List.getElem?_map, List.getElem?_map, hj]
    rfl
  have hball : ∀ j : ℕ, ∀ e2 : GoldenEntry, golden[j]? = some e2 →
      (baselineResults boracle golden)[j]? =
        some (baselineRawResult boracle e2,
          compute_photo_accuracy (baselineRawResult boracle e2).retrieved_photo_ids
            (baselineRawResult boracle e2).expected_photo_ids) := by
    intro j e2 hj
    rw [baselineResults, List.getElem?_map, List.getElem?_map, hj]
    rfl
  refine ⟨⟨?_, ?_, hall⟩, ?_, ?_, hball⟩
  · rw [run_combo_per_query, List.length_map, List.length_map]
  · intro hj ho
    rw [hall i entry hj]
    simp [processQuery, ho]
  · rw [baselineResults, List.length_map, List.length_map]
  · intro hj ho
    rw [hball i entry hj]
    have hraw : baselineRawResult boracle entry =
        ⟨entry.question, entry.category, entry.expected_photo_ids, [],
          "ERROR: " ++ msg, [], none, none⟩ := by
      rw [baselineRawResult, ho]
    rw [hraw]

/-- Witness for the amended C6: a concrete one-query batch whose only request
fails; the sweep evaluator records the all-zero degraded record. -/
theorem per_query_error_isolation_inst :
    cexGoldenFail[0]? = some ⟨"q", "people", ["p1"]⟩ ∧
    cexFailOracleS "q" (groupIdsFor "people") ⟨10, 1 / 2, 3 / 4⟩ = .error "timeout" ∧
    (run_combo cexGoldenFail cexFailOracleS ⟨10, 1 / 2, 3 / 4⟩).per_query[0]? =
      some ⟨"q", "people", 1, 0, 0, 0, 0, some "timeout"⟩ := by
  refine ⟨rfl, rfl, ?_⟩
  exact (((per_query_error_isolation cexGoldenFail cexFailOracleS cexFailOracleB
    ⟨10, 1 / 2, 3 / 4⟩ 0 ⟨"q", "people", ["p1"]⟩ "timeout").1).2.1) rfl rfl

lemma driverStates_zero (golden : List GoldenEntry) (oracle : SweepOracle)
    (st : DriverState) (cs : List SearchParams) :
    (driverStates golden oracle st cs)[0]? = some st := by
  cases cs with
  | nil => rfl
  | cons c rest => simp [driverStates]

/-- Claim C7: on a resumed start the driver's first loop state carries the
persisted checkpoint; a grid configuration is in the remaining list iff its
canonical key is NOT among the checkpoint keys (so the skip set is exactly
checkpoint-keys ∩ current-grid-keys, and a checkpointed configuration is
never re-run); concretely, with a checkpoint holding one combo of a
two-combo grid, the resumed run executes exactly one combo and the
checkpoint afterwards contains both keys. -/
theorem resume_skips_checkpointed (cp : Checkpoint) (combos : List SearchParams)
    (golden : List GoldenEntry) (oracle : SweepOracle) :
    ((runSweepDriver golden oracle true (some cp) combos).states[0]? =
      some ⟨cp, some cp⟩) ∧
    (∀ c ∈ combos, c ∈ combosRemaining combos cp ↔ combo_key c ∉ alreadyDone cp) ∧
    (∀ c ∈ combos, combo_key c ∈ alreadyDone cp → c ∉ combosRemaining combos cp) ∧
    combosRemaining cexGrid cexCheckpoint = [cexComboB] ∧
    (combosRemaining cexGrid cexCheckpoint).length = 1 ∧
    (driverStates [] cexFailOracleS ⟨cexCheckpoint, some cexCheckpoint⟩
        (combosRemaining cexGrid cexCheckpoint))[1]?.map
      (fun st => alreadyDone st.checkpoint) =
      some [combo_key cexComboA, combo_key cexComboB] := by
  have hiff : ∀ c ∈ combos, c ∈ combosRemaining combos cp ↔
      combo_key c ∉ alreadyDone cp := by
    intro c hc
    simp [combosRemaining, List.mem_filter, hc]
  refine ⟨?_, hiff, ?_, by decide, by decide, by decide⟩
  · exact driverStates_zero golden oracle _ _
  · intro c hc hk hmem
    exact ((hiff c hc).mp hmem) hk

/-- Witness for C7: the checkpointed combo of the concrete scenario is in the
grid, its key is in the checkpoint, and it is not re-run. -/
theorem resume_skips_checkpointed_inst :
    cexComboA ∈ cexGrid ∧ combo_key cexComboA ∈ alreadyDone cexCheckpoint ∧
    cexComboA ∉ combosRemaining cexGrid cexCheckpoint :=
  ⟨by decide, by decide,
    (resume_skips_checkpointed cexCheckpoint cexGrid [] cexFailOracleS).2.2.1
      cexComboA (by decide) (by decide)⟩

lemma assocInsert_not_mem {l : List (String × ComboResult)} {key : String}
    {v : ComboResult} (h : key ∉ l.map (fun p => p.1)) :
    assocInsert l key v = l ++ [(key, v)] := by
  rw [assocInsert, if_neg]
  intro hany
  rw [List.any_eq_true] at hany
  obtain ⟨p, hp, hpk⟩ := hany
  rw [decide_eq_true_eq] at hpk
  exact h (hpk ▸ List.mem_map_of_mem (fun p => p.1) hp)

lemma driverStates_spec (golden : List GoldenEntry) (oracle : SweepOracle)
    (cs : List SearchParams) (st0 : DriverState)
    (hnd : (alreadyDone st0.checkpoint ++ cs.map combo_key).Nodup) :
    (driverStates golden oracle st0 cs).length = cs.length + 1 ∧
    ∀ i : ℕ, i ≤ cs.length →
      ∃ st : DriverState, (driverStates golden oracle st0 cs)[i]? = some st ∧
        st.checkpoint.completed = st0.checkpoint.completed ++
          ((cs.take i).map (fun c => (combo_key c, run_combo golden oracle c))) ∧
        (0 < i → st.file = some st.checkpoint) := by
  induction cs generalizing st0 with
  | nil =>
    refine ⟨rfl, ?_⟩
    intro i hi
    have hi0 : i = 0 := Nat.le_zero.mp hi
    subst hi0
    exact ⟨st0, rfl, by simp, by omega⟩
  | cons c rest ih =>
    have hkey : combo_key c ∉ alreadyDone st0.checkpoint := by
      intro hmem
      have h2 : combo_key c ∈ (c :: rest).map combo_key := by simp
      exact (List.disjoint_of_nodup_append hnd) hmem h2
    have hstep1 : (driverStep golden oracle st0 c).checkpoint.completed =
        st0.checkpoint.completed ++ [(combo_key c, run_combo golden oracle c)] := by
      simp only [driverStep]
      exact assocInsert_not_mem hkey
    have hnd2 : (alreadyDone (driverStep golden oracle st0 c).checkpoint ++
        rest.map combo_key).Nodup := by
      have hA : alreadyDone (driverStep golden oracle st0 c).checkpoint =
          alreadyDone st0.checkpoint ++ [combo_key c] := by
        simp [alreadyDone, hstep1]
      rw [hA, List.append_assoc]
      exact hnd
    obtain ⟨ihl, ihp⟩ := ih (driverStep golden oracle st0 c) hnd2
    constructor
    · simp only [driverStates, List.length_cons, ihl]
    intro i hi
    cases i with
    | zero =>
      exact ⟨st0, by simp [driverStates], by simp, by omega⟩
    | succ i2 =>
      have hi2 : i2 ≤ rest.length := by
        simpa [Nat.succ_le_succ_iff] using hi
      obtain ⟨st, hst, hcomp, hfile⟩ := ihp i2 hi2
      refine ⟨st, ?_, ?_, ?_⟩
      · simpa [driverStates, List.getElem?_cons_succ] using hst
      · rw [hcomp, hstep1]
        simp [List.take_succ_cons, List.append_assoc]
      · intro _
        cases i2 with
        | zero =>
          have h0 := driverStates_zero golden oracle (driverStep golden oracle st0 c) rest
          rw [hst] at h0
          injection h0 with h3
          subst h3
          rfl
        | succ i3 =>
          exact hfile (Nat.succ_pos i3)

/-- Claim C8: under distinct configuration keys, after each combo completes
its result is in the persisted checkpoint file before any later combo starts
(state `i+1`, in which combo `i+1` runs, has the file equal to the in-memory
checkpoint holding exactly the initial entries plus the first `i+1` finished
combos); on completion the results are ranked by overall F1 descending (a
sorted permutation), the baseline is looked up by exact parameter match over
the ranked results, and the checkpoint file is gone. -/
theorem checkpoint_durability_and_completion (golden : List GoldenEntry)
    (oracle : SweepOracle) (resume : Bool) (fileCp : Option Checkpoint)
    (combos : List SearchParams)
    (hnd : (alreadyDone (initialCheckpoint resume fileCp) ++
      (combosRemaining combos (initialCheckpoint resume fileCp)).map
        combo_key).Nodup) :
    (∀ i : ℕ, i ≤ (combosRemaining combos (initialCheckpoint resume fileCp)).length →
      ∃ st : DriverState,
        (runSweepDriver golden oracle resume fileCp combos).states[i]? = some st ∧
        st.checkpoint.completed = (initialCheckpoint resume fileCp).completed ++
          (((combosRemaining combos (initialCheckpoint resume fileCp)).take i).map
            (fun c => (combo_key c, run_combo golden oracle c))) ∧
        (0 < i → st.file = some st.checkpoint)) ∧
    List.Sorted comboGE (runSweepDriver golden oracle resume fileCp combos).ranked ∧
    (runSweepDriver golden oracle resume fileCp combos).ranked.Perm
      (runSweepDriver golden oracle resume fileCp combos).results ∧
    (∀ b : ComboResult,
      (runSweepDriver golden oracle resume fileCp combos).baseline = some b →
      b ∈ (runSweepDriver golden oracle resume fileCp combos).ranked ∧
      b.params = ⟨10, 1 / 2, 3 / 4⟩) ∧
    ((runSweepDriver golden oracle resume fileCp combos).baseline = none →
      ∀ r ∈ (runSweepDriver golden oracle resume fileCp combos).ranked,
        r.params ≠ ⟨10, 1 / 2, 3 / 4⟩) ∧
    (runSweepDriver golden oracle resume fileCp combos).finalFile = none := by
  refine ⟨?_, ?_, ?_, ?_, ?_, rfl⟩
  · intro i hi
    exact (driverStates_spec golden oracle _
      ⟨initialCheckpoint resume fileCp, fileCp⟩ hnd).2 i hi
  · exact List.sorted_insertionSort comboGE _
  · exact List.perm_insertionSort comboGE _
  · intro b hb
    have h1 := List.mem_of_find?_eq_some hb
    have h2 := List.find?_some hb
    rw [decide_eq_true_eq] at h2
    exact ⟨h1, h2⟩
  · intro hb r hr
    have h3 := List.find?_eq_none.mp hb r hr
    simpa using h3

/-- Witness for C8 at the concrete resume scenario: the keys are distinct,
the final file is gone, and after the single remaining combo completes the
file carries both entries. -/
theorem checkpoint_durability_and_completion_inst :
    (alreadyDone (initialCheckpoint true (some cexCheckpoint)) ++
      (combosRemaining cexGrid (initialCheckpoint true (some cexCheckpoint))).map
        combo_key).Nodup ∧
    (runSweepDriver [] cexFailOracleS true (some cexCheckpoint) cexGrid).finalFile =
      none ∧
    (∃ st : DriverState,
      (runSweepDriver [] cexFailOracleS true (some cexCheckpoint) cexGrid).states[1]? =
        some st ∧
      st.checkpoint.completed = (initialCheckpoint true (some cexCheckpoint)).completed ++
        (((combosRemaining cexGrid (initialCheckpoint true (some cexCheckpoint))).take 1).map
          (fun c => (combo_key c, run_combo [] cexFailOracleS c))) ∧
      (0 < 1 → st.file = some st.checkpoint)) := by
  have hnd : (alreadyDone (initialCheckpoint true (some cexCheckpoint)) ++
      (combosRemaining cexGrid (initialCheckpoint true (some cexCheckpoint))).map
        combo_key).Nodup := by decide
  have hth := checkpoint_durability_and_completion [] cexFailOracleS true
    (some cexCheckpoint) cexGrid hnd
  exact ⟨hnd, hth.2.2.2.2.2, hth.1 1 (by decide)⟩

lemma foldCorrect_spec (ai : List AiTag) (ts : List String)
    (m : String → CatBuckets) (cat : String) :
    ((ts.foldl (fun m t => bucketUpd m (lookupCategory ai t.toLower)
        (fun b => ⟨b.correct ++ [t], b.incorrect, b.missing⟩)) m) cat).correct =
      (m cat).correct ++ ts.filter (fun t => lookupCategory ai t.toLower = cat) ∧
    ((ts.foldl (fun m t => bucketUpd m (lookupCategory ai t.toLower)
        (fun b => ⟨b.correct ++ [t], b.incorrect, b.missing⟩)) m) cat).incorrect =
      (m cat).incorrect ∧
    ((ts.foldl (fun m t => bucketUpd m (lookupCategory ai t.toLower)
        (fun b => ⟨b.correct ++ [t], b.incorrect, b.missing⟩)) m) cat).missing =
      (m cat).missing := by
  induction ts generalizing m with
  | nil => simp
  | cons t ts ih =>
    simp only [List.foldl_cons, List.filter_cons]
    obtain ⟨ih1, ih2, ih3⟩ := ih (bucketUpd m (lookupCategory ai t.toLower)
      (fun b => ⟨b.correct ++ [t], b.incorrect, b.missing⟩))
    by_cases h : lookupCategory ai t.toLower = cat
    · rw [if_pos (by simpa using h)]
      refine ⟨?_, ?_, ?_⟩
      · rw [ih1]
        simp [bucketUpd, if_pos h.symm, List.append_assoc]
      · rw [ih2]
        simp [bucketUpd, if_pos h.symm]
      · rw [ih3]
        simp [bucketUpd, if_pos h.symm]
    · rw [if_neg (by simpa using h)]
      have hne : ¬ cat = lookupCategory ai t.toLower := fun hEq => h hEq.symm
      refine ⟨?_, ?_, ?_⟩
      · rw [ih1]
        simp [bucketUpd, if_neg hne]
      · rw [ih2]
        simp [bucketUpd, if_neg hne]
      · rw [ih3]
        simp [bucketUpd, if_neg hne]

lemma foldIncorrect_spec (ai : List AiTag) (ts : List String)
    (m : String → CatBuckets) (cat : String) :
    ((ts.foldl (fun m t => bucketUpd m (lookupCategory ai t.toLower)
        (fun b => ⟨b.correct, b.incorrect ++ [t], b.missing⟩)) m) cat).correct =
      (m cat).correct ∧
    ((ts.foldl (fun m t => bucketUpd m (lookupCategory ai t.toLower)
        (fun b => ⟨b.correct, b.incorrect ++ [t], b.missing⟩)) m) cat).incorrect =
      (m cat).incorrect ++ ts.filter (fun t => lookupCategory ai t.toLower = cat) ∧
    ((ts.foldl (fun m t => bucketUpd m (lookupCategory ai t.toLower)
        (fun b => ⟨b.correct, b.incorrect ++ [t], b.missing⟩)) m) cat).missing =
      (m cat).missing := by
  induction ts generalizing m with
  | nil => simp
  | cons t ts ih =>
    simp only [List.foldl_cons, List.filter_cons]
    obtain ⟨ih1, ih2, ih3⟩ := ih (bucketUpd m (lookupCategory ai t.toLower)
      (fun b => ⟨b.correct, b.incorrect ++ [t], b.missing⟩))
    by_cases h : lookupCategory ai t.toLower = cat
    · rw [if_pos (by simpa using h)]
      refine ⟨?_, ?_, ?_⟩
      · rw [ih1]
        simp [bucketUpd, if_pos h.symm]
      · rw [ih2]
        simp [bucketUpd, if_pos h.symm, List.append_assoc]
      · rw [ih3]
        simp [bucketUpd, if_pos h.symm]
    · rw [if_neg (by simpa using h)]
      have hne : ¬ cat = lookupCategory ai t.toLower := fun hEq => h hEq.symm
      refine ⟨?_, ?_, ?_⟩
      · rw [ih1]
        simp [bucketUpd, if_neg hne]
      · rw [ih2]
        simp [bucketUpd, if_neg hne]
      · rw [ih3]
        simp [bucketUpd, if_neg hne]

lemma foldMissing_spec (ts : List String) (m : String → CatBuckets) (cat : String) :
    ((ts.foldl (fun m t => bucketUpd m "missing_from_ai"
        (fun b => ⟨b.correct, b.incorrect, b.missing ++ [t]⟩)) m) cat).correct =
      (m cat).correct ∧
    ((ts.foldl (fun m t => bucketUpd m "missing_from_ai"
        (fun b => ⟨b.correct, b.incorrect, b.missing ++ [t]⟩)) m) cat).incorrect =
      (m cat).incorrect ∧
    ((ts.foldl (fun m t => bucketUpd m "missing_from_ai"
        (fun b => ⟨b.correct, b.incorrect, b.missing ++ [t]⟩)) m) cat).missing =
      (m cat).missing ++ (if cat = "missing_from_ai" then ts else []) := by
  induction ts generalizing m with
  | nil => simp
  | cons t ts ih =>
    simp only [List.foldl_cons]
    obtain ⟨ih1, ih2, ih3⟩ := ih (bucketUpd m "missing_from_ai"
      (fun b => ⟨b.correct, b.incorrect, b.missing ++ [t]⟩))
    by_cases h : cat = "missing_from_ai"
    · refine ⟨?_, ?_, ?_⟩
      · rw [ih1]
        simp [bucketUpd, if_pos h]
      · rw [ih2]
        simp [bucketUpd, if_pos h]
      · rw [ih3]
        simp [bucketUpd, if_pos h, h, List.append_assoc]
    · refine ⟨?_, ?_, ?_⟩
      · rw [ih1]
        simp [bucketUpd, if_neg h]
      · rw [ih2]
        simp [bucketUpd, if_neg h]
      · rw [ih3]
        simp [bucketUpd, if_neg h, h]

lemma overrideFold_not_mem {β : Type} (val : AiTag → β) (ts : List AiTag)
    (m : String → Option β) (key : String)
    (h : key ∉ ts.map (fun a => a.tag.toLower)) :
    (ts.foldl (fun m a => fun k => if k = a.tag.toLower then some (val a) else m k) m)
      key = m key := by
  induction ts generalizing m with
  | nil => rfl
  | cons b bs ih =>
    have hb : key ≠ b.tag.toLower := by
      intro hEq
      exact h (by simp [hEq])
    have hbs : key ∉ bs.map (fun a => a.tag.toLower) := by
      intro hmem
      exact h (by simp [hmem])
    rw [List.foldl_cons, ih _ hbs, if_neg hb]

lemma overrideFold_mem {β : Type} (val : AiTag → β) (ts : List AiTag)
    (m : String → Option β) (a : AiTag) (ha : a ∈ ts)
    (hnd : (ts.map (fun x => x.tag.toLower)).Nodup) :
    (ts.foldl (fun m a => fun k => if k = a.tag.toLower then some (val a) else m k) m)
      a.tag.toLower = some (val a) := by
  induction ts generalizing m with
  | nil => cases ha
  | cons b bs ih =>
    simp only [List.map_cons, List.nodup_cons] at hnd
    rcases List.mem_cons.mp ha with hab | ha2
    · subst hab
      rw [List.foldl_cons, overrideFold_not_mem val bs _ _ hnd.1]
      simp
    · exact ih _ ha2 hnd.2

/-- Claim C9: tag matching in the tagging benchmark is case-insensitive —
an AI tag is classified by lowercase membership with the correct list
checked first (a tag in both lists under differing case is classified
correct), classification depends only on the lowercased label lists, the
category and confidence maps key on the lowercased tag string, and all
reported tag lists preserve the original casing. -/
theorem tag_matching_case_insensitive (e : GTEntry) (a : AiTag)
    (cs is2 : List String) :
    (a.tag.toLower ∈ cs.map String.toLower →
      classifyAiTag (cs.map String.toLower) (is2.map String.toLower) a =
        some ⟨a.tag, a.confidence, a.category, true⟩) ∧
    (a.tag.toLower ∉ cs.map String.toLower →
      a.tag.toLower ∈ is2.map String.toLower →
      classifyAiTag (cs.map String.toLower) (is2.map String.toLower) a =
        some ⟨a.tag, a.confidence, a.category, false⟩) ∧
    (a.tag.toLower ∉ cs.map String.toLower →
      a.tag.toLower ∉ is2.map String.toLower →
      classifyAiTag (cs.map String.toLower) (is2.map String.toLower) a = none) ∧
    (∀ e2 : GTEntry, e2.ai_tags = e.ai_tags →
      e2.correct_tags.map String.toLower = e.correct_tags.map String.toLower →
      e2.incorrect_tags.map String.toLower = e.incorrect_tags.map String.toLower →
      entrySamples e2 = entrySamples e) ∧
    (∀ cat : String,
      (categorize_tags e cat).correct =
        e.correct_tags.filter (fun t => lookupCategory e.ai_tags t.toLower = cat) ∧
      (categorize_tags e cat).incorrect =
        e.incorrect_tags.filter (fun t => lookupCategory e.ai_tags t.toLower = cat) ∧
      (categorize_tags e cat).missing =
        (if cat = "missing_from_ai" then e.missing_tags else [])) ∧
    ((e.ai_tags.map (fun x => x.tag.toLower)).Nodup → a ∈ e.ai_tags →
      build_confidence_map e a.tag.toLower = some a.confidence ∧
      lookupCategory e.ai_tags a.tag.toLower = a.category) := by
  refine ⟨?_, ?_, ?_, ?_, ?_, ?_⟩
  · intro h
    rw [classifyAiTag, if_pos h]
  · intro h1 h2
    rw [classifyAiTag, if_neg h1, if_pos h2]
  · intro h1 h2
    rw [classifyAiTag, if_neg h1, if_neg h2]
  · intro e2 h1 h2 h3
    rw [entrySamples, entrySamples, h1, h2, h3]
  · intro cat
    have hcat := categorize_tags
    refine ⟨?_, ?_, ?_⟩
    · rw [show categorize_tags e cat =
          (e.missing_tags.foldl (fun m t => bucketUpd m "missing_from_ai"
            (fun b => ⟨b.correct, b.incorrect, b.missing ++ [t]⟩))
            (e.incorrect_tags.foldl (fun m t =>
              bucketUpd m (lookupCategory e.ai_tags t.toLower)
                (fun b => ⟨b.correct, b.incorrect ++ [t], b.missing⟩))
              (e.correct_tags.foldl (fun m t =>
                bucketUpd m (lookupCategory e.ai_tags t.toLower)
                  (fun b => ⟨b.correct ++ [t], b.incorrect, b.missing⟩))
                (fun _ => ⟨[], [], []⟩)))) cat from rfl,
        (foldMissing_spec _ _ _).1, (foldIncorrect_spec _ _ _ _).1,
        (foldCorrect_spec _ _ _ _).1]
      rfl
    · rw [show categorize_tags e cat =
          (e.missing_tags.foldl (fun m t => bucketUpd m "missing_from_ai"
            (fun b => ⟨b.correct, b.incorrect, b.missing ++ [t]⟩))
            (e.incorrect_tags.foldl (fun m t =>
              bucketUpd m (lookupCategory e.ai_tags t.toLower)
                (fun b => ⟨b.correct, b.incorrect ++ [t], b.missing⟩))
              (e.correct_tags.foldl (fun m t =>
                bucketUpd m (lookupCategory e.ai_tags t.toLower)
                  (fun b => ⟨b.correct ++ [t], b.incorrect, b.missing⟩))
                (fun _ => ⟨[], [], []⟩)))) cat from rfl,
        (foldMissing_spec _ _ _).2.1, (foldIncorrect_spec _ _ _ _).2.1,
        (foldCorrect_spec _ _ _ _).2.1]
      rfl
    · rw [show categorize_tags e cat =
          (e.missing_tags.foldl (fun m t => bucketUpd m "missing_from_ai"
            (fun b => ⟨b.correct, b.incorrect, b.missing ++ [t]⟩))
            (e.incorrect_tags.foldl (fun m t =>
              bucketUpd m (lookupCategory e.ai_tags t.toLower)
                (fun b => ⟨b.correct, b.incorrect ++ [t], b.missing⟩))
              (e.correct_tags.foldl (fun m t =>
                bucketUpd m (lookupCategory e.ai_tags t.toLower)
                  (fun b => ⟨b.correct ++ [t], b.incorrect, b.missing⟩))
                (fun _ => ⟨[], [], []⟩)))) cat from rfl,
        (foldMissing_spec _ _ _).2.2, (foldIncorrect_spec _ _ _ _).2.2,
        (foldCorrect_spec _ _ _ _).2.2]
      rfl
  · intro hnd ha
    constructor
    · exact overrideFold_mem (fun a => a.confidence) e.ai_tags _ a ha hnd
    · rw [lookupCategory, tagToCategory,
        overrideFold_mem (fun a => a.category) e.ai_tags _ a ha hnd]
      rfl

/-- Witness for C9: a tag present (after lowercasing) in both the correct and
the incorrect label list is classified CORRECT, with its original casing
preserved in the sample. -/
theorem tag_matching_case_insensitive_inst :
    ("dOg" : String).toLower ∈ (["dOg"] : List String).map String.toLower ∧
    classifyAiTag ((["dOg"] : List String).map String.toLower)
        ((["dOg"] : List String).map String.toLower) ⟨"dOg", 9 / 10, "animal"⟩ =
      some ⟨"dOg", 9 / 10, "animal", true⟩ := by
  have hmem : ("dOg" : String).toLower ∈ (["dOg"] : List String).map String.toLower := by
    simp
  exact ⟨hmem, (tag_matching_case_insensitive ⟨"p", "n", [], [], [], []⟩
    ⟨"dOg", 9 / 10, "animal"⟩ ["dOg"] ["dOg"]).1 hmem⟩

/-- Claim C10: the confidence-distribution summary sorts each label's
confidences ascending and reports the element at index `⌊n/2⌋` as the
median — for an even, non-zero count that is the UPPER of the two middle
values, not their average — and reports `count = 0` with min, max, mean and
median all absent for an empty label; the summary is computed per
correctness label. -/
theorem confidence_distribution_median (samples : List TagSample) (confs : List ℚ) :
    List.Sorted (fun a b : ℚ => a ≤ b)
      (List.insertionSort (fun a b : ℚ => a ≤ b) confs) ∧
    (List.insertionSort (fun a b : ℚ => a ≤ b) confs).Perm confs ∧
    (confStats confs).count = confs.length ∧
    (confStats confs).median =
      ((List.insertionSort (fun a b : ℚ => a ≤ b) confs)[
        (List.insertionSort (fun a b : ℚ => a ≤ b) confs).length / 2]?).map round4 ∧
    (confs = [] → confStats confs = ⟨0, none, none, none, none⟩) ∧
    (∀ n : ℕ, confs.length = 2 * n → 0 < n →
      ∃ a b : ℚ,
        (List.insertionSort (fun a b : ℚ => a ≤ b) confs)[n - 1]? = some a ∧
        (List.insertionSort (fun a b : ℚ => a ≤ b) confs)[n]? = some b ∧
        a ≤ b ∧ (confStats confs).median = some (round4 b)) ∧
    confidence_distribution samples =
      (confStats ((samples.filter (fun s => s.is_correct)).map (fun s => s.confidence)),
        confStats ((samples.filter (fun s => !s.is_correct)).map
          (fun s => s.confidence))) ∧
    ((confStats [1 / 10, 3 / 10]).median = some (3 / 10) ∧
      (3 / 10 : ℚ) ≠ (1 / 10 + 3 / 10) / 2) := by
  have hs : List.Sorted (fun a b : ℚ => a ≤ b)
      (List.insertionSort (fun a b : ℚ => a ≤ b) confs) :=
    List.sorted_insertionSort _ _
  have hp : (List.insertionSort (fun a b : ℚ => a ≤ b) confs).Perm confs :=
    List.perm_insertionSort _ _
  refine ⟨hs, hp, hp.length_eq, rfl, ?_, ?_, rfl, ?_, ?_⟩
  · intro h
    subst h
    rfl
  · intro n hlen hn
    have hslen : (List.insertionSort (fun a b : ℚ => a ≤ b) confs).length = 2 * n := by
      rw [hp.length_eq, hlen]
    have hnlt : n < (List.insertionSort (fun a b : ℚ => a ≤ b) confs).length := by
      omega
    have hn1lt : n - 1 < (List.insertionSort (fun a b : ℚ => a ≤ b) confs).length := by
      omega
    have hdiv : (List.insertionSort (fun a b : ℚ => a ≤ b) confs).length / 2 = n := by
      omega
    refine ⟨(List.insertionSort (fun a b : ℚ => a ≤ b) confs).get ⟨n - 1, hn1lt⟩,
      (List.insertionSort (fun a b : ℚ => a ≤ b) confs).get ⟨n, hnlt⟩, ?_, ?_, ?_, ?_⟩
    · rw [List.getElem?_eq_getElem hn1lt]
      rfl
    · rw [List.getElem?_eq_getElem hnlt]
      rfl
    · exact hs.rel_get_of_lt (Fin.mk_lt_mk.mpr (by omega))
    · rw [show (confStats confs).median =
          ((List.insertionSort (fun a b : ℚ => a ≤ b) confs)[
            (List.insertionSort (fun a b : ℚ => a ≤ b) confs).length / 2]?).map round4
          from rfl,
        hdiv, List.getElem?_eq_getElem hnlt]
      rfl
  · have hsorted : List.insertionSort (fun a b : ℚ => a ≤ b) [1 / 10, 3 / 10] =
        [1 / 10, 3 / 10] := by
      norm_num [List.insertionSort, List.orderedInsert]
    rw [show (confStats [1 / 10, 3 / 10]).median =
        ((List.insertionSort (fun a b : ℚ => a ≤ b) [1 / 10, 3 / 10])[
          (List.insertionSort (fun a b : ℚ => a ≤ b) [1 / 10, 3 / 10]).length / 2]?).map
          round4 from rfl, hsorted]
    norm_num [round4, roundHalfEven]
  · norm_num

/-- Witness for C10: the concrete two-element list (1/10, 3/10) has even
length 2·1 and its median is the upper middle element. -/
theorem confidence_distribution_median_inst :
    ([1 / 10, 3 / 10] : List ℚ).length = 2 * 1 ∧ 0 < 1 ∧
    (∃ a b : ℚ,
      (List.insertionSort (fun a b : ℚ => a ≤ b) [1 / 10, 3 / 10])[1 - 1]? = some a ∧
      (List.insertionSort (fun a b : ℚ => a ≤ b) [1 / 10, 3 / 10])[1]? = some b ∧
      a ≤ b ∧ (confStats [1 / 10, 3 / 10]).median = some (round4 b)) :=
  ⟨rfl, by decide,
    (confidence_distribution_median [] [1 / 10, 3 / 10]).2.2.2.2.2.1 1 rfl (by decide)⟩

end PicAI
